import Mathlib

/-! Verification of `mtg_deck_compiler.py` (m-nez/mtg_deck_compiler).

This file gives a shallow embedding of the program: the deck-file parser
(`Compiler.load_dec`), the page layout (`Compiler.make_montage`), the
image-acquisition pipeline (`Compiler.download_img` with its three source
resolvers), and the overwrite-confirmation helper (`exists_abort`).
Pure Python string operations are embedded as Lean functions over
`List Char`; the effectful pipeline is embedded as explicit state passing
over a filesystem model, an event trace, and an environment describing the
outcomes of the network requests and of the operator's answers to prompts.
-/

set_option autoImplicit false

/-! ## Python string primitives -/

/-- Whitespace as recognized by Python's `str.split` / `str.strip` and by the
regex class `\s` (restricted to the ASCII whitespace characters, which are the
only ones exercised by the program's inputs): space, tab, newline, carriage
return, vertical tab, form feed. -/
def isPySpace (c : Char) : Bool :=
  List.contains [' ', '\t', '\n', '\r', Char.ofNat 11, Char.ofNat 12] c

/-- Python `s.split(maxsplit=n)`: split on runs of whitespace, ignoring leading
whitespace, performing at most `n` splits; the remainder after the last split is
kept verbatim (starting at its first non-whitespace character). -/
def pySplit (maxsplit : Nat) (s : List Char) : List (List Char) :=
  let t := s.dropWhile isPySpace
  if t.isEmpty then []
  else
    match maxsplit with
    | 0 => [t]
    | ms + 1 =>
      t.takeWhile (fun c => !(isPySpace c)) :: pySplit ms (t.dropWhile (fun c => !(isPySpace c)))

/-- Python `s.strip()`: remove whitespace from both ends. -/
def pyStripL (s : List Char) : List Char :=
  ((s.dropWhile isPySpace).reverse.dropWhile isPySpace).reverse

/-- Python `s.strip()` on `String`. -/
def pyStrip (s : String) : String :=
  String.mk (pyStripL s.data)

/-- Value of a nonempty all-digit string. -/
def digitsVal (l : List Char) : Option Nat :=
  if l.isEmpty then none
  else if l.all (fun c => c.isDigit) then
    some (l.foldl (fun a c => a * 10 + (c.toNat - 48)) 0)
  else none

/-- Python `int(s)` on a decimal string: surrounding whitespace is allowed,
then an optional sign followed by at least one digit.  (Underscore digit
grouping is not modelled; no deck file uses it.)  `none` models the raised
`ValueError`. -/
def pyInt (s : List Char) : Option Int :=
  match pyStripL s with
  | [] => none
  | c :: rest =>
    if c = '+' then (digitsVal rest).map (fun n => (n : Int))
    else if c = '-' then (digitsVal rest).map (fun n => -(n : Int))
    else (digitsVal (c :: rest)).map (fun n => (n : Int))

/-- Iterating over a Python text file yields its lines, each including its
trailing newline; a last line without a trailing newline is yielded as is; no
empty final element is produced. -/
def pyLinesAux : List Char → List Char → List String
  | [], [] => []
  | [], acc => [String.mk acc.reverse]
  | '\n' :: rest, acc => String.mk (('\n' :: acc).reverse) :: pyLinesAux rest []
  | c :: rest, acc => pyLinesAux rest (c :: acc)

/-- The lines of a file's content, as Python file iteration yields them. -/
def pyLines (s : String) : List String :=
  pyLinesAux s.data []

/-- The `str.startswith` (and the prefix test of `urljoin`): computed on the
character lists so that it reduces inside the kernel. -/
def strStartsWith (s p : String) : Bool :=
  List.isPrefixOf p.data s.data

/-- The `str.endswith`, computed on the character lists. -/
def strEndsWith (s p : String) : Bool :=
  List.isPrefixOf p.data.reverse s.data.reverse

/-- The `str.lower`, computed on the character lists. -/
def strToLower (s : String) : String :=
  String.mk (s.data.map Char.toLower)

/-- Python `os.path.join(a, b)` for the cases the program exercises:
an empty first component yields `b`; an absolute `b` discards `a`; otherwise
the components are joined with a single `/`. -/
def osPathJoin (a b : String) : String :=
  if a.data.isEmpty then b
  else if strStartsWith b "/" then b
  else if strEndsWith a "/" then a ++ b
  else a ++ "/" ++ b

/-! ## Deck-file parsing: `Compiler.load_dec` -/

/-- Result of processing one deck-file line: the line is skipped (comment or
blank), yields a `(count, name)` entry, or raises (`err`: unpacking or `int`
conversion failure). -/
inductive LineRes where
  | skip
  | entry (count : Int) (name : String)
  | err
  deriving DecidableEq

/-- One iteration of the loop body of `Compiler.load_dec`:

```
if l[0] == "#" or l[0] == "\n": continue
if l.startswith("SB:"):
    count, name = l.split(maxsplit = 2)[1:]
else:
    count, name = l.split(maxsplit=1)
count = int(count)
name = name.strip()
```
-/
def processLineL (ld : List Char) : LineRes :=
  match ld with
  | [] => .err
  | c :: _ =>
    if c = '#' ∨ c = '\n' then .skip
    else if List.isPrefixOf ("SB:".data) ld then
      match pySplit 2 ld with
      | [_, cstr, rest] =>
        match pyInt cstr with
        | some n => .entry n (pyStrip (String.mk rest))
        | none => .err
      | _ => .err
    else
      match pySplit 1 ld with
      | [cstr, rest] =>
        match pyInt cstr with
        | some n => .entry n (pyStrip (String.mk rest))
        | none => .err
      | _ => .err

/-- The `processLineL` applied to the line's characters. -/
def processLine (l : String) : LineRes :=
  processLineL l.data

/-- The `self._dict[name] = count` / `self._dict[name] += count`: update the single
entry for `name` if present (keys are unique by construction), otherwise append
a new entry, preserving insertion order as a Python `dict` does. -/
def updDict : List (String × Int) → String → Int → List (String × Int)
  | [], n, c => [(n, c)]
  | (k, v) :: d, n, c => if k = n then (k, v + c) :: d else (k, v) :: updDict d n c

/-- The loop of `Compiler.load_dec`, threading `(self._dict, self._size)`;
`none` models an exception escaping the loop on a malformed line. -/
def loadDecLines : List String → List (String × Int) × Int → Option (List (String × Int) × Int)
  | [], st => some st
  | l :: rest, (d, sz) =>
    match processLine l with
    | .skip => loadDecLines rest (d, sz)
    | .err => none
    | .entry c n => loadDecLines rest (updDict d n c, sz + c)

/-- The `Compiler.load_dec` on the content of the deck file: builds the
name → count mapping and the total card count. -/
def load_dec (content : String) : Option (List (String × Int) × Int) :=
  loadDecLines (pyLines content) ([], 0)

/-- Sum of the per-name counts of a deck mapping. -/
def sumCounts (d : List (String × Int)) : Int :=
  (d.map (fun p => p.2)).sum

/-! ## Page layout: the pure content of `Compiler.make_montage` -/

/-- The `(self._size - 1) // 9 + 1` with Python floor division. -/
def numPages (size : Int) : Int :=
  (size - 1).fdiv 9 + 1

/-- The `[os.path.join(self._directory, im) for im in self._dict for i in range(self._dict[im])]`:
each unique card contributes its cache path `count` times consecutively, in
insertion (first-occurrence) order. -/
def montageImages (dir : String) (d : List (String × Int)) : List String :=
  d.flatMap (fun p => List.replicate p.2.toNat (osPathJoin dir p.1))

/-- The `"".join([self._prefix, str(i), self._suffix])`. -/
def pageName (pfx sfx : String) (i : Nat) : String :=
  pfx ++ (toString i) ++ sfx

/-! ## The scrape resolver's pattern match: `MagicCards.img_url`

`MagicCards.img_url` runs
`re.search(r'img\s+src="([^"]+)"\s+alt="%s"' % card, site, re.M)`.
The card name is interpolated into the pattern unescaped, so its characters
are regex syntax.  We embed the fragment of Python `re` this pattern needs:
literal characters, `.` (any character except newline), and the one-or-more
repetition of a single-character class (`\s+`, `[^"]+`), with Python's
leftmost search and greedy, backtracking alternative order.  (`re.M` only
alters `^`/`$`, which do not occur in the pattern.) -/

/-- Regex fragment used by the pattern of `MagicCards.img_url`. -/
inductive Rx where
  | eps
  | lit (c : Char)
  | any
  | plus1 (p : Char → Bool)
  | seq (a b : Rx)

/-- Remainders after `p`-chars⁺ consumes one or more characters, in greedy
(longest-first) preference order. -/
def plusSuffixes (p : Char → Bool) : List Char → List (List Char)
  | [] => []
  | c :: s => if p c then plusSuffixes p s ++ [s] else []

/-- All remainders after matching `r` at the start of `s`, in the engine's
backtracking preference order. -/
def Rx.accept : Rx → List Char → List (List Char)
  | .eps, s => [s]
  | .lit _, [] => []
  | .lit c, x :: t => if x = c then [t] else []
  | .any, [] => []
  | .any, x :: t => if x = '\n' then [] else [t]
  | .plus1 p, s => plusSuffixes p s
  | .seq a b, s => (Rx.accept a s).flatMap (Rx.accept b)

/-- The regex matching a literal character sequence. -/
def Rx.lits (l : List Char) : Rx :=
  l.foldr (fun c r => Rx.seq (Rx.lit c) r) Rx.eps

/-- The pattern part before the capture group: `img\s+src="`. -/
def rxPre : Rx :=
  Rx.seq (Rx.lits ("img".data)) (Rx.seq (Rx.plus1 isPySpace) (Rx.lits ("src=\"".data)))

/-- The class of the capture group `[^"]`. -/
def notQuote (c : Char) : Bool :=
  !(c == '"')

/-- The pattern part after the capture group: `"\s+alt="%s"` with the card
regex spliced in. -/
def rxPost (cardRx : Rx) : Rx :=
  Rx.seq (Rx.lit '"')
    (Rx.seq (Rx.plus1 isPySpace)
      (Rx.seq (Rx.lits ("alt=\"".data)) (Rx.seq cardRx (Rx.lit '"'))))

/-- Match the whole pattern anchored at the start of `s`; on success return the
text of the capture group `([^"]+)`, honouring Python's preference order
(greedy group first). -/
def matchAt (cardRx : Rx) (s : List Char) : Option (List Char) :=
  (Rx.accept rxPre s).findSome? (fun t1 =>
    (plusSuffixes notQuote t1).findSome? (fun t2 =>
      if ((rxPost cardRx).accept t2).isEmpty then none
      else some (t1.take (t1.length - t2.length))))

/-- The `re.search`: try each position left to right, return the first (leftmost)
match's capture group. -/
def reSearch (cardRx : Rx) : List Char → Option (List Char)
  | [] => matchAt cardRx []
  | s@(_ :: t) =>
    match matchAt cardRx s with
    | some u => some u
    | none => reSearch cardRx t

/-- Regex metacharacters of Python `re` (as they may occur in a card name). -/
def metaChars : List Char :=
  ['.', '\\', '+', '*', '?', '[', ']', '(', ')', '^', '$', '|', Char.ofNat 123, Char.ofNat 125]

/-- A character the pattern interpolation treats as a literal. -/
def plainChar (c : Char) : Bool :=
  !(metaChars.contains c)

/-- Compile the card name as the regex fragment it becomes after `%`
interpolation.  Modelled domain: names whose only metacharacter is `.`
(matching any character except newline); a name using any other
metacharacter is outside the modelled domain and mapped to `none`. -/
def compileCard : List Char → Option Rx
  | [] => some Rx.eps
  | c :: rest =>
    match compileCard rest with
    | none => none
    | some r =>
      if c = '.' then some (Rx.seq Rx.any r)
      else if metaChars.contains c then none
      else some (Rx.seq (Rx.lit c) r)

/-- The `MagicCards.img_url(site, card)`: search the page markup for the pattern;
`Except.error` models the raised `LookupError("Could not find image for: %s")`. -/
def MagicCards.img_url (site card : String) : Except String String :=
  match compileCard card.data with
  | some rx =>
    match reSearch rx site.data with
    | some u => Except.ok (String.mk u)
    | none => Except.error ("Could not find image for: " ++ card)
  | none => Except.error ("Could not find image for: " ++ card)

/-! ### Spec-side exact-match scanner

The spec reads: "extract the first image URL whose adjacent alt-text exactly
matches the card name".  The following scanner is written from those words
(not from the code): at each position, require literally `img`, one or more
whitespace characters, `src="`, a nonempty quote-free URL, `"`, one or more
whitespace characters, `alt="`, the card name verbatim, `"`; return the URL of
the leftmost such occurrence. -/

/-- Match a literal character sequence, returning the remainder. -/
def dropLits : List Char → List Char → Option (List Char)
  | [], s => some s
  | _ :: _, [] => none
  | c :: l, x :: s => if x = c then dropLits l s else none

/-- Require at least one `p`-character and consume the whole maximal run. -/
def chomp1 (p : Char → Bool) : List Char → Option (List Char)
  | [] => none
  | c :: t => if p c then some (t.dropWhile p) else none

/-- Exact occurrence of the pattern at the start of `s`, per the spec's words;
returns the URL (the `src` text). -/
def specMatchAt (card : List Char) (s : List Char) : Option (List Char) :=
  (dropLits ("img".data) s).bind (fun s1 =>
    (chomp1 isPySpace s1).bind (fun s2 =>
      (dropLits ("src=\"".data) s2).bind (fun s3 =>
        (chomp1 notQuote s3).bind (fun s4 =>
          ((dropLits ("\"".data) s4).bind (fun s5 =>
            (chomp1 isPySpace s5).bind (fun s6 =>
              (dropLits ("alt=\"".data) s6).bind (fun s7 =>
                (dropLits card s7).bind (fun s8 =>
                  dropLits ("\"".data) s8))))).map (fun _ =>
                    s3.takeWhile notQuote)))))

/-- Leftmost exact occurrence. -/
def specFind (card : List Char) : List Char → Option (List Char)
  | [] => specMatchAt card []
  | s@(_ :: t) =>
    match specMatchAt card s with
    | some u => some u
    | none => specFind card t

/-- The image URL of the first img tag whose adjacent alt-text exactly equals
the card name, if any — the spec's description of `MagicCards.img_url`. -/
def specImgUrl (site card : String) : Option String :=
  (specFind card.data site.data).map String.mk

/-! ## The effectful pipeline

`Compiler.download_img`, `Compiler.make_montage` and `Compiler.merge_pdf` are
embedded as explicit state passing.  The environment fixes the outcome of each
network request and the operator's answer to each overwrite prompt; the state
carries the filesystem and the trace of observable events (prints, log lines,
prompts, network requests, file writes, external image-tool invocations). -/

/-- Outcome of `requests.get` when the caller uses the response body:
either the request raises, or it returns a response with a status code and a
byte body.  (`requests` does not raise on a non-2xx status; the program never
inspects `status_code`.) -/
inductive ReqOut where
  | exn (msg : String)
  | resp (status : Nat) (content : List Nat)
  deriving DecidableEq

/-- Outcome of `requests.get` when the caller uses `r.text` (the MagicCards
query) or `r.url` (the Gatherer query, the final URL after redirects). -/
inductive TextOut where
  | exn (msg : String)
  | resp (text : String)
  deriving DecidableEq

/-- A raised Python exception, by the classes the program distinguishes:
`LookupError`, any other `Exception` subclass (transport errors,
`IsADirectoryError`, …), and `SystemExit` (raised by `exit`, *not* an
`Exception` subclass, hence never caught by `except Exception`). -/
inductive Er where
  | lookup (msg : String)
  | exc (msg : String)
  | sysExit (code : Nat)
  deriving DecidableEq

/-- Observable events of a run. -/
inductive Ev where
  | printMsg (msg : String)
  | logInfo (msg : String)
  | prompt (path : String)
  | netScry (card : String)
  | netMC (card : String)
  | netGatherer (card : String)
  | netFetch (url : String)
  | fsWrite (path : String) (content : List Nat)
  | resizeImg (path : String)
  | montage (inputs : List String) (output : String)
  | pdfOut (inputs : List String) (output : String)
  deriving DecidableEq

/-- Whether the event is a network request. -/
def Ev.isNet : Ev → Bool
  | .netScry _ => true
  | .netMC _ => true
  | .netGatherer _ => true
  | .netFetch _ => true
  | _ => false

/-- A filesystem node: a regular file with known bytes, a file produced by an
external tool (bytes not modelled), or a directory. -/
inductive FsNode where
  | file (content : List Nat)
  | extFile
  | dir
  deriving DecidableEq

/-- Environment of a run: the `Compiler` configuration plus the behaviour of
the outside world (network and operator). -/
structure Env where
  directory : String
  overwrite : Bool
  scry : String → ReqOut
  mcQuery : String → TextOut
  gthQuery : String → TextOut
  fetch : String → ReqOut
  answer : String → String

/-- Mutable state of a run: the filesystem and the event trace. -/
structure St where
  fs : List (String × FsNode)
  events : List Ev
  deriving DecidableEq

/-- The embedding monad: reader over `Env`, state over `St`, exceptions. -/
def M (α : Type) : Type :=
  Env → St → Except Er α × St

/-- Monadic return. -/
def mPure {α : Type} (a : α) : M α :=
  fun _ st => (Except.ok a, st)

/-- Monadic bind: an exception skips the continuation. -/
def mBind {α β : Type} (x : M α) (f : α → M β) : M β :=
  fun env st =>
    match x env st with
    | (Except.ok a, st2) => f a env st2
    | (Except.error e, st2) => (Except.error e, st2)

/-- Record an event. -/
def emit (e : Ev) : M Unit :=
  fun _ st => (Except.ok (), { st with events := st.events ++ [e] })

/-- The `except Exception` around `x`: catches `LookupError` and other
`Exception`s, but not `SystemExit`. -/
def catchExc {α : Type} (x : M α) (h : String → M α) : M α :=
  fun env st =>
    match x env st with
    | (Except.error (Er.lookup m), st2) => h m env st2
    | (Except.error (Er.exc m), st2) => h m env st2
    | r => r

/-- The `except LookupError` around `x`. -/
def catchLookup {α : Type} (x : M α) (h : String → M α) : M α :=
  fun env st =>
    match x env st with
    | (Except.error (Er.lookup m), st2) => h m env st2
    | r => r

/-- First node registered for the path, if any. -/
def fsLookup : List (String × FsNode) → String → Option FsNode
  | [], _ => none
  | (q, n) :: fs, p => if q = p then some n else fsLookup fs p

/-- Install (or replace) the node for a path. -/
def fsSet : List (String × FsNode) → String → FsNode → List (String × FsNode)
  | [], p, n => [(p, n)]
  | (q, m) :: fs, p, n => if q = p then (q, n) :: fs else (q, m) :: fsSet fs p n

/-- The `os.path.isfile`. -/
def isFile (fs : List (String × FsNode)) (p : String) : Bool :=
  match fsLookup fs p with
  | some (FsNode.file _) => true
  | some FsNode.extFile => true
  | _ => false

/-- The `os.path.exists`. -/
def pathExists (fs : List (String × FsNode)) (p : String) : Bool :=
  (fsLookup fs p).isSome

/-- The `open(p, "wb").write(content)`: raises `IsADirectoryError` on a directory,
otherwise replaces the node with a regular file holding the bytes. -/
def writeFile (p : String) (content : List Nat) : M Unit :=
  fun _ st =>
    match fsLookup st.fs p with
    | some FsNode.dir => (Except.error (Er.exc ("IsADirectoryError: " ++ p)), st)
    | _ =>
      (Except.ok (),
        { fs := fsSet st.fs p (FsNode.file content), events := st.events ++ [Ev.fsWrite p content] })

/-- One iteration of `exists_abort`: if the path exists, prompt; any answer
other than `"y"` prints `Aborting` and calls `exit(0)`. -/
def exists_abort1 (p : String) : M Unit :=
  fun env st =>
    if pathExists st.fs p then
      let st1 := { st with events := st.events ++ [Ev.prompt p] }
      if env.answer p ≠ "y" then
        (Except.error (Er.sysExit 0), { st1 with events := st1.events ++ [Ev.printMsg "Aborting"] })
      else (Except.ok (), st1)
    else (Except.ok (), st)

/-- The `exists_abort(*args)`. -/
def exists_abort : List String → M Unit
  | [] => mPure ()
  | p :: rest => mBind (exists_abort1 p) (fun _ => exists_abort rest)

/-- The `if not self._overwrite: act` -/
def unlessOverwrite (act : M Unit) : M Unit :=
  fun env st => if env.overwrite then (Except.ok (), st) else act env st

/-- The `Scryfall.save_img(cardname, filename)`: GET the structured API and write
`response.content` to the file — with no status or emptiness check. -/
def Scryfall.save_img (cardname filename : String) : M Unit :=
  fun env st =>
    let st1 := { st with events := st.events ++ [Ev.netScry cardname] }
    match env.scry cardname with
    | ReqOut.exn m => (Except.error (Er.exc m), st1)
    | ReqOut.resp _ content => writeFile filename content env st1

/-- The `MagicCards.make_query(cardname)`. -/
def MagicCards.make_query (cardname : String) : String :=
  "http://magiccards.info/query?q=" ++ (cardname.replace " " "+") ++ "&v=card&s=cname"

/-- The `urllib.parse.urljoin("http://magiccards.info", url)` for the URL shapes
the scraped pages produce (protocol-relative, absolute path, or relative). -/
def urljoinRoot (url : String) : String :=
  if strStartsWith url "//" then "http:" ++ url
  else if strStartsWith url "/" then "http://magiccards.info" ++ url
  else "http://magiccards.info/" ++ url

/-- The `MagicCards.get_img_url(card)`: fetch the query page, scan it with
`img_url` (a failed scan raises `LookupError`), and absolutize the URL. -/
def MagicCards.get_img_url (card : String) : M String :=
  fun env st =>
    let st1 := { st with events := st.events ++ [Ev.netMC card] }
    match env.mcQuery card with
    | TextOut.exn m => (Except.error (Er.exc m), st1)
    | TextOut.resp text =>
      match MagicCards.img_url text card with
      | Except.error m => (Except.error (Er.lookup m), st1)
      | Except.ok url =>
        (Except.ok (if strStartsWith url "http://" then url else urljoinRoot url), st1)

/-- The `Gatherer.make_query(cardname)`. -/
def Gatherer.make_query (cardname : String) : String :=
  "http://gatherer.wizards.com/Pages/Search/Default.aspx?name=+[" ++ cardname ++ "]"

/-- The `r.url[r.url.find("=") + 1:]`: everything after the first `=`, or the whole
string when there is none (`find` returns `-1`). -/
def afterFirstEq (s : String) : String :=
  match s.data.dropWhile (fun c => !(c == '=')) with
  | [] => s
  | _ :: rest => String.mk rest

/-- The deterministic Gatherer image URL synthesized from the multiverse id. -/
def gathererImgUrl (finalUrl : String) : String :=
  "http://gatherer.wizards.com/Handlers/Image.ashx?multiverseid=" ++ afterFirstEq finalUrl
    ++ "&type=card"

/-- The `Gatherer.get_img_url(card)`: query the legacy service, read the redirect's
final URL, extract the id and build the image URL (no failure mode of its own —
only a raised transport error). -/
def Gatherer.get_img_url (card : String) : M String :=
  fun env st =>
    let st1 := { st with events := st.events ++ [Ev.netGatherer card] }
    match env.gthQuery card with
    | TextOut.exn m => (Except.error (Er.exc m), st1)
    | TextOut.resp finalUrl => (Except.ok (gathererImgUrl finalUrl), st1)

/-- Module-level `save_img(url, filename)`: plain GET; a zero-length body is
logged and abandoned without writing; otherwise the bytes are written. -/
def save_img (url filename : String) : M Unit :=
  fun env st =>
    let st1 := { st with events := st.events ++ [Ev.netFetch url] }
    match env.fetch url with
    | ReqOut.exn m => (Except.error (Er.exc m), st1)
    | ReqOut.resp _ content =>
      if content.length = 0 then
        (Except.ok (),
          { st1 with events :=
              st1.events ++ [Ev.printMsg ("Error: Incorrect url " ++ url ++ " for " ++ filename)] })
      else writeFile filename content env st1

/-- The `ImageMagic.resize(img)`: external `convert` invocation. -/
def ImageMagic.resize (img : String) : M Unit :=
  emit (Ev.resizeImg img)

/-- The `Compiler.check_cache(img)`. -/
def check_cache (fs : List (String × FsNode)) (directory img : String) : Bool :=
  isFile fs (osPathJoin directory img)

/-- The body of `Compiler.download_img` for one card of `self._dict`. -/
def downloadOne (card : String) : M Unit :=
  fun env st =>
    let path := osPathJoin env.directory card
    if check_cache st.fs env.directory card then
      (Except.ok (), { st with events := st.events ++ [Ev.printMsg ("Found cached: " ++ card)] })
    else
      (mBind (emit (Ev.printMsg ("Downloading: " ++ card))) (fun _ =>
        mBind (exists_abort [path]) (fun _ =>
          mBind
            (catchExc (Scryfall.save_img card path) (fun e =>
              mBind (emit (Ev.logInfo e)) (fun _ =>
                mBind
                  (catchLookup (MagicCards.get_img_url card) (fun e2 =>
                    mBind (emit (Ev.logInfo e2)) (fun _ => Gatherer.get_img_url card)))
                  (fun url =>
                    mBind (unlessOverwrite (exists_abort [path])) (fun _ =>
                      save_img url path)))))
            (fun _ => ImageMagic.resize path)))) env st

/-- The `Compiler.download_img`: iterate over the deck's unique card names in
first-occurrence order. -/
def download_img : List String → M Unit
  | [] => mPure ()
  | c :: rest => mBind (downloadOne c) (fun _ => download_img rest)

/-- External `montage` invocation for one page, which creates the output file. -/
def montageCall (inputs : List String) (output : String) : M Unit :=
  fun _ st =>
    (Except.ok (),
      { fs := fsSet st.fs output FsNode.extFile, events := st.events ++ [Ev.montage inputs output] })

/-- One iteration of the `Compiler.make_montage` loop for page `i`. -/
def montageOnePage (images : List String) (pfx sfx : String) (i : Nat) : M String :=
  mBind (unlessOverwrite (exists_abort [pageName pfx sfx i])) (fun _ =>
    mBind (montageCall ((images.drop (9 * i)).take 9) (pageName pfx sfx i)) (fun _ =>
      mPure (pageName pfx sfx i)))

/-- The `Compiler.make_montage` loop over the page indices, accumulating
`self._images`. -/
def make_montage_go (images : List String) (pfx sfx : String) : List Nat → M (List String)
  | [] => mPure []
  | i :: rest =>
    mBind (montageOnePage images pfx sfx i) (fun out =>
      mBind (make_montage_go images pfx sfx rest) (fun outs => mPure (out :: outs)))

/-- The `Compiler.make_montage`. -/
def make_montage (d : List (String × Int)) (size : Int) (pfx sfx : String) : M (List String) :=
  fun env st =>
    make_montage_go (montageImages env.directory d) pfx sfx
      (List.range (numPages size).toNat) env st

/-- The `output if output.lower().endswith(".pdf") else output + ".pdf"`. -/
def withPdfExt (output : String) : String :=
  if strEndsWith (strToLower output) ".pdf" then output else output ++ ".pdf"

/-- The `Compiler.merge_pdf(output)`. -/
def merge_pdf (images : List String) (output : String) : M Unit :=
  mBind (unlessOverwrite (exists_abort [withPdfExt output])) (fun _ =>
    fun _ st =>
      (Except.ok (),
        { fs := fsSet st.fs (withPdfExt output) FsNode.extFile,
          events := st.events ++ [Ev.pdfOut images (withPdfExt output)] }))

/-! ## General list lemmas -/

theorem takeWhile_append_stop {α : Type} (p : α → Bool) (l1 : List α) (c : α) (l2 : List α)
    (h1 : ∀ x ∈ l1, p x = true) (hc : p c = false) :
    (l1 ++ c :: l2).takeWhile p = l1 := by
  induction l1 with
  | nil => simp [List.takeWhile_cons, hc]
  | cons a l ih =>
    have ha : p a = true := h1 a (by simp)
    simp only [List.cons_append, List.takeWhile_cons, ha, if_true]
    rw [ih (fun x hx => h1 x (by simp [hx]))]

theorem dropWhile_append_stop {α : Type} (p : α → Bool) (l1 : List α) (c : α) (l2 : List α)
    (h1 : ∀ x ∈ l1, p x = true) (hc : p c = false) :
    (l1 ++ c :: l2).dropWhile p = c :: l2 := by
  induction l1 with
  | nil => simp [List.dropWhile_cons, hc]
  | cons a l ih =>
    have ha : p a = true := h1 a (by simp)
    simp only [List.cons_append, List.dropWhile_cons, ha, if_true]
    exact ih (fun x hx => h1 x (by simp [hx]))

theorem dropWhile_append_of_exists {α : Type} (p : α → Bool) (l1 l2 : List α)
    (h : ∃ x ∈ l1, p x = false) :
    (l1 ++ l2).dropWhile p = l1.dropWhile p ++ l2 := by
  induction l1 with
  | nil => obtain ⟨x, hx, _⟩ := h; cases hx
  | cons a l ih =>
    by_cases ha : p a = true
    · simp only [List.cons_append, List.dropWhile_cons, ha, if_true]
      apply ih
      obtain ⟨x, hx, hpx⟩ := h
      rcases List.mem_cons.mp hx with rfl | hx'
      · rw [ha] at hpx; cases hpx
      · exact ⟨x, hx', hpx⟩
    · have ha' : p a = false := by revert ha; cases p a <;> simp
      simp [List.dropWhile_cons, ha']

theorem dropWhile_ne_nil_of_exists {α : Type} (p : α → Bool) (l : List α)
    (h : ∃ x ∈ l, p x = false) :
    l.dropWhile p ≠ [] := by
  induction l with
  | nil => obtain ⟨x, hx, _⟩ := h; cases hx
  | cons a l ih =>
    by_cases ha : p a = true
    · simp only [List.dropWhile_cons, ha, if_true]
      apply ih
      obtain ⟨x, hx, hpx⟩ := h
      rcases List.mem_cons.mp hx with rfl | hx'
      · rw [ha] at hpx; cases hpx
      · exact ⟨x, hx', hpx⟩
    · have ha' : p a = false := by revert ha; cases p a <;> simp
      simp [List.dropWhile_cons, ha']

theorem dropWhile_head_false {α : Type} (p : α → Bool) (l : List α) :
    ∀ c t, l.dropWhile p = c :: t → p c = false := by
  induction l with
  | nil => intro c t h; cases h
  | cons a l ih =>
    intro c t h
    by_cases ha : p a = true
    · rw [List.dropWhile_cons, if_pos ha] at h; exact ih c t h
    · have ha' : p a = false := by revert ha; cases p a <;> simp
      rw [List.dropWhile_cons, if_neg (by simp [ha'])] at h
      cases h; exact ha'

/-! ## Deck-parsing lemmas and claims C9, C10 -/

theorem sumCounts_updDict (d : List (String × Int)) (n : String) (c : Int) :
    sumCounts (updDict d n c) = sumCounts d + c := by
  induction d with
  | nil => simp [updDict, sumCounts]
  | cons p d ih =>
    by_cases h : p.1 = n
    · simp [updDict, h, sumCounts]; ring
    · obtain ⟨k, v⟩ := p
      simp only [updDict] at *
      rw [if_neg h]
      simp [sumCounts] at ih ⊢
      omega

theorem loadDecLines_size (lines : List String) :
    ∀ d sz d2 sz2, loadDecLines lines (d, sz) = some (d2, sz2) →
      sz = sumCounts d → sz2 = sumCounts d2 := by
  induction lines with
  | nil =>
    intro d sz d2 sz2 h hinv
    simp only [loadDecLines, Option.some_inj, Prod.mk.injEq] at h
    obtain ⟨rfl, rfl⟩ := h
    exact hinv
  | cons l rest ih =>
    intro d sz d2 sz2 h hinv
    simp only [loadDecLines] at h
    cases hp : processLine l with
    | skip => rw [hp] at h; exact ih d sz d2 sz2 h hinv
    | err => rw [hp] at h; cases h
    | entry c n =>
      rw [hp] at h
      exact ih _ _ d2 sz2 h (by rw [sumCounts_updDict, hinv])

/-- C10: after `load_dec` completes on a well-formed deck file, comment and
blank lines contribute nothing to the deck, counts of repeated names accumulate
(`"1 Forest\n2 Forest\n"` gives count 3 for `Forest`), and the stored total
`self._size` equals the sum of the per-name counts of `self._dict`. -/
theorem c10_load_dec_invariants (content : String) (d : List (String × Int)) (sz : Int)
    (h : load_dec content = some (d, sz)) :
    sz = sumCounts d ∧
    (∀ (l : String) (rest : List String) (st : List (String × Int) × Int),
      (l.data.head? = some '#' ∨ l.data.head? = some '\n') →
      loadDecLines (l :: rest) st = loadDecLines rest st) ∧
    load_dec ("1 Forest\n2 Forest\n") = some ([("Forest", 3)], 3) := by
  refine ⟨loadDecLines_size _ _ _ _ _ h rfl, ?_, by rfl⟩
  intro l rest st hl
  obtain ⟨d1, sz1⟩ := st
  have hskip : processLine l = .skip := by
    rcases hl with hl | hl <;>
    · rcases hd : l.data with _ | ⟨c, t⟩ <;> rw [hd] at hl <;> simp at hl
      subst hl
      simp [processLine, processLineL, hd]
  simp [loadDecLines, hskip]

/-- Witness for C10 at the deck file `"1 Forest\n2 Forest\n"`. -/
theorem c10_load_dec_invariants_witness :
    load_dec ("1 Forest\n2 Forest\n") = some ([("Forest", 3)], 3) ∧
    (3 : Int) = sumCounts [("Forest", 3)] := by
  have h := c10_load_dec_invariants ("1 Forest\n2 Forest\n") [("Forest", 3)] 3 (by rfl)
  exact ⟨h.2.2, h.1⟩

theorem dropWhile_eq_self_of_head {α : Type} (p : α → Bool) (c : α) (t : List α)
    (h : p c = false) : (c :: t).dropWhile p = c :: t := by
  simp [List.dropWhile_cons, h]

theorem dropWhile_eq_self_of_all {α : Type} (p : α → Bool) (l : List α)
    (h : ∀ x ∈ l, p x = false) : l.dropWhile p = l := by
  cases l with
  | nil => rfl
  | cons a t => simp [List.dropWhile_cons, h a (by simp)]

theorem pyStripL_of_all (l : List Char) (h : ∀ x ∈ l, isPySpace x = false) :
    pyStripL l = l := by
  unfold pyStripL
  rw [dropWhile_eq_self_of_all _ _ h, dropWhile_eq_self_of_all, List.reverse_reverse]
  intro x hx
  exact h x (List.mem_reverse.mp hx)

theorem pyInt_head (cd : List Char) (n : Int) (hint : pyInt cd = some n)
    (hcw : ∀ x ∈ cd, isPySpace x = false) :
    ∃ c0 t, cd = c0 :: t ∧ (c0 = '+' ∨ c0 = '-' ∨ c0.isDigit = true) := by
  unfold pyInt at hint
  rw [pyStripL_of_all cd hcw] at hint
  cases cd with
  | nil => exact absurd hint (by simp)
  | cons c0 t =>
    refine ⟨c0, t, rfl, ?_⟩
    have hint2 :
        (if c0 = '+' then (digitsVal t).map (fun n => (n : Int))
         else if c0 = '-' then (digitsVal t).map (fun n => -(n : Int))
         else (digitsVal (c0 :: t)).map (fun n => (n : Int))) = some n := hint
    by_cases h1 : c0 = '+'
    · exact Or.inl h1
    by_cases h2 : c0 = '-'
    · exact Or.inr (Or.inl h2)
    rw [if_neg h1, if_neg h2] at hint2
    right; right
    unfold digitsVal at hint2
    by_cases h3 : ((c0 :: t).all (fun c => c.isDigit)) = true
    · exact (List.all_eq_true.mp h3 c0 (by simp))
    · rw [if_neg (by simp), if_neg h3] at hint2
      cases hint2

/-- The `pySplit` only depends on the input with its leading whitespace removed. -/
theorem pySplit_congr (m : Nat) (l1 l2 : List Char)
    (h : l1.dropWhile isPySpace = l2.dropWhile isPySpace) :
    pySplit m l1 = pySplit m l2 := by
  cases m <;> simp only [pySplit, h]

/-- Splitting `<token> <remainder>\n` with one split: the token, then the
remainder stripped of its leading whitespace, keeping the newline. -/
theorem pySplit_one_token (cd nd : List Char)
    (hne : cd ≠ []) (hcw : ∀ x ∈ cd, isPySpace x = false)
    (hnw : ∃ x ∈ nd, isPySpace x = false) :
    pySplit 1 (cd ++ ' ' :: (nd ++ ['\n'])) =
      [cd, nd.dropWhile isPySpace ++ ['\n']] := by
  obtain ⟨c0, t, rfl⟩ : ∃ c0 t, cd = c0 :: t := by
    cases cd with
    | nil => exact absurd rfl hne
    | cons a b => exact ⟨a, b, rfl⟩
  have hdropl : ((c0 :: t) ++ ' ' :: (nd ++ ['\n'])).dropWhile isPySpace
      = (c0 :: t) ++ ' ' :: (nd ++ ['\n']) := by
    exact dropWhile_eq_self_of_head _ _ _ (hcw c0 (by simp))
  have htake : ((c0 :: t) ++ ' ' :: (nd ++ ['\n'])).takeWhile (fun c => !(isPySpace c))
      = c0 :: t := by
    apply takeWhile_append_stop
    · intro x hx; simp [hcw x hx]
    · simp [isPySpace]
  have hdrop : ((c0 :: t) ++ ' ' :: (nd ++ ['\n'])).dropWhile (fun c => !(isPySpace c))
      = ' ' :: (nd ++ ['\n']) := by
    apply dropWhile_append_stop
    · intro x hx; simp [hcw x hx]
    · simp [isPySpace]
  have hnd : (nd ++ ['\n']).dropWhile isPySpace = nd.dropWhile isPySpace ++ ['\n'] :=
    dropWhile_append_of_exists _ _ _ hnw
  have hin : pySplit 0 (' ' :: (nd ++ ['\n'])) = [nd.dropWhile isPySpace ++ ['\n']] := by
    have hd2 : (' ' :: (nd ++ ['\n'])).dropWhile isPySpace
        = nd.dropWhile isPySpace ++ ['\n'] := by
      rw [List.dropWhile_cons, if_pos (by simp [isPySpace])]
      exact hnd
    have e0 : pySplit 0 (' ' :: (nd ++ ['\n'])) =
        (if ((' ' :: (nd ++ ['\n'])).dropWhile isPySpace).isEmpty then []
         else [(' ' :: (nd ++ ['\n'])).dropWhile isPySpace]) := rfl
    rw [e0, hd2, if_neg (by simp)]
  have e1 : pySplit 1 ((c0 :: t) ++ ' ' :: (nd ++ ['\n'])) =
      (if (((c0 :: t) ++ ' ' :: (nd ++ ['\n'])).dropWhile isPySpace).isEmpty then []
       else (((c0 :: t) ++ ' ' :: (nd ++ ['\n'])).dropWhile isPySpace).takeWhile
              (fun c => !(isPySpace c)) ::
            pySplit 0 ((((c0 :: t) ++ ' ' :: (nd ++ ['\n'])).dropWhile isPySpace).dropWhile
              (fun c => !(isPySpace c)))) := rfl
  rw [e1, hdropl, if_neg (by simp), htake, hdrop, hin]

/-- Stripping the remainder piece equals stripping the original name. -/
theorem pyStripL_tail (nd : List Char) (hnw : ∃ x ∈ nd, isPySpace x = false) :
    pyStripL (nd.dropWhile isPySpace ++ ['\n']) = pyStripL nd := by
  obtain ⟨c, t, hct⟩ : ∃ c t, nd.dropWhile isPySpace = c :: t := by
    rcases h : nd.dropWhile isPySpace with _ | ⟨a, b⟩
    · exact absurd h (dropWhile_ne_nil_of_exists _ _ hnw)
    · exact ⟨a, b, rfl⟩
  have hc : isPySpace c = false := dropWhile_head_false _ _ _ _ hct
  unfold pyStripL
  rw [hct]
  have h1 : ((c :: t) ++ ['\n']).dropWhile isPySpace = c :: (t ++ ['\n']) := by
    rw [List.cons_append]
    exact dropWhile_eq_self_of_head _ _ _ hc
  rw [h1]
  have h2 : (c :: (t ++ ['\n'])).reverse = '\n' :: (t.reverse ++ [c]) := by simp
  rw [h2, List.dropWhile_cons, if_pos (by simp [isPySpace])]
  have h3 : (c :: t).reverse = t.reverse ++ [c] := by simp
  rw [h3]

/-- C9: a non-comment non-blank line `<count> <name>` parses to the count (the
first whitespace-separated token, a positive integer) and the trimmed remainder
of the line as the name (which may contain spaces); a line `SB: <count> <name>`
skips the `SB:` token and the count token and takes the name from everything
after the count.  In particular `"3 Lightning Bolt\n"` yields
`(3, "Lightning Bolt")` and `"SB: 2 Negate\n"` yields `(2, "Negate")`. -/
theorem c9_parse_line (cstr name : String) (n : Int)
    (hint : pyInt cstr.data = some n) (_hpos : 0 < n)
    (hcw : ∀ x ∈ cstr.data, isPySpace x = false)
    (hnw : ∃ x ∈ name.data, isPySpace x = false) :
    processLine (cstr ++ " " ++ name ++ "\n") = LineRes.entry n (pyStrip name) ∧
    processLine ("SB: " ++ cstr ++ " " ++ name ++ "\n") = LineRes.entry n (pyStrip name) := by
  obtain ⟨c0, t, hcd, halt⟩ := pyInt_head cstr.data n hint hcw
  have hc0 : c0 ≠ '#' ∧ c0 ≠ '\n' ∧ c0 ≠ 'S' := by
    rcases halt with rfl | rfl | hd
    · exact ⟨by decide, by decide, by decide⟩
    · exact ⟨by decide, by decide, by decide⟩
    · refine ⟨?_, ?_, ?_⟩ <;> intro h <;> rw [h] at hd <;> exact absurd hd (by decide)
  have hne : cstr.data ≠ [] := by rw [hcd]; simp
  have hsplit := pySplit_one_token cstr.data name.data hne hcw hnw
  have hstrip : pyStrip (String.mk (name.data.dropWhile isPySpace ++ ['\n'])) = pyStrip name := by
    unfold pyStrip
    exact congrArg String.mk (pyStripL_tail name.data hnw)
  constructor
  · have hdata : (cstr ++ " " ++ name ++ "\n").data =
        cstr.data ++ ' ' :: (name.data ++ ['\n']) := by
      show (((cstr ++ " ") ++ name) ++ "\n").data = _
      rw [String.data_append, String.data_append, String.data_append]
      show (cstr.data ++ [' ']) ++ name.data ++ ['\n'] = _
      simp
    have hint2 := hint
    rw [hcd] at hsplit hint2
    unfold processLine
    rw [hdata, hcd]
    simp only [List.cons_append] at hsplit ⊢
    simp only [processLineL]
    rw [if_neg (by rintro (h | h) <;> [exact hc0.1 h; exact hc0.2.1 h])]
    rw [if_neg (show ¬(List.isPrefixOf ("SB:".data) (c0 :: (t ++ ' ' :: (name.data ++ ['\n'])))
        = true) from ?side)]
    case side =>
      have hS : ('S' == c0) = false := by
        simp only [beq_eq_false_iff_ne]
        exact fun h => hc0.2.2 h.symm
      show ¬(List.isPrefixOf ['S', 'B', ':'] (c0 :: (t ++ ' ' :: (name.data ++ ['\n']))) = true)
      simp [List.isPrefixOf, hS]
    simp only [hsplit, hint2, hstrip]
  · have hdata : ("SB: " ++ cstr ++ " " ++ name ++ "\n").data =
        'S' :: 'B' :: ':' :: ' ' :: (cstr.data ++ ' ' :: (name.data ++ ['\n'])) := by
      show ((("SB: " ++ cstr ++ " ") ++ name) ++ "\n").data = _
      rw [String.data_append, String.data_append]
      show (("SB: " ++ cstr).data ++ [' ']) ++ name.data ++ ['\n'] = _
      rw [String.data_append]
      show ((['S', 'B', ':', ' '] ++ cstr.data) ++ [' ']) ++ name.data ++ ['\n'] = _
      simp
    unfold processLine
    rw [hdata]
    simp only [processLineL]
    rw [if_neg (by rintro (h | h) <;> cases h)]
    rw [if_pos (by simp [List.isPrefixOf])]
    have hsb : pySplit 2 ('S' :: 'B' :: ':' :: ' ' :: (cstr.data ++ ' ' :: (name.data ++ ['\n'])))
        = [['S', 'B', ':'], cstr.data, name.data.dropWhile isPySpace ++ ['\n']] := by
      obtain ⟨cd, hcdv⟩ : ∃ cd, cstr.data = cd := ⟨cstr.data, rfl⟩
      have hX : ∃ X, cstr.data ++ ' ' :: (name.data ++ ['\n']) = X :=
        ⟨cstr.data ++ ' ' :: (name.data ++ ['\n']), rfl⟩
      obtain ⟨X, hXe⟩ := hX
      have hXd : X.dropWhile isPySpace = X := by
        rw [← hXe, hcd, List.cons_append]
        exact dropWhile_eq_self_of_head _ _ _ (hcw c0 (by rw [hcd]; simp))
      have e2 : pySplit 2 ('S' :: 'B' :: ':' :: ' ' :: X) =
          (if (('S' :: 'B' :: ':' :: ' ' :: X).dropWhile isPySpace).isEmpty then []
           else (('S' :: 'B' :: ':' :: ' ' :: X).dropWhile isPySpace).takeWhile
                  (fun c => !(isPySpace c)) ::
                pySplit 1 ((('S' :: 'B' :: ':' :: ' ' :: X).dropWhile isPySpace).dropWhile
                  (fun c => !(isPySpace c)))) := rfl
      have hd0 : ('S' :: 'B' :: ':' :: ' ' :: X).dropWhile isPySpace
          = 'S' :: 'B' :: ':' :: ' ' :: X := by
        rw [List.dropWhile_cons, if_neg (by decide)]
      have ht0 : ('S' :: 'B' :: ':' :: ' ' :: X).takeWhile (fun c => !(isPySpace c))
          = ['S', 'B', ':'] := by
        show ((['S', 'B', ':'] : List Char) ++ ' ' :: X).takeWhile (fun c => !(isPySpace c)) = _
        apply takeWhile_append_stop
        · decide
        · decide
      have hdr0 : ('S' :: 'B' :: ':' :: ' ' :: X).dropWhile (fun c => !(isPySpace c))
          = ' ' :: X := by
        show ((['S', 'B', ':'] : List Char) ++ ' ' :: X).dropWhile (fun c => !(isPySpace c)) = _
        apply dropWhile_append_stop
        · decide
        · decide
      have hrec : pySplit 1 (' ' :: X) = pySplit 1 X := by
        apply pySplit_congr
        rw [List.dropWhile_cons, if_pos (by decide)]
      rw [← hXe] at *
      rw [e2, hd0, if_neg (by simp), ht0, hdr0, hrec, hsplit]
    rw [hsb]
    simp only [hint, hstrip]

/-- Witness for C9 at the spec's two example lines. -/
theorem c9_parse_line_witness :
    processLine ("3 Lightning Bolt\n") = LineRes.entry 3 ("Lightning Bolt") ∧
    processLine ("SB: 2 Negate\n") = LineRes.entry 2 ("Negate") := by
  constructor
  · exact (c9_parse_line ("3") ("Lightning Bolt") 3 (by decide) (by decide) (by decide)
      (by decide)).1
  · exact (c9_parse_line ("2") ("Negate") 2 (by decide) (by decide) (by decide) (by decide)).2

/-! ## Injectivity of `Nat.repr` (for distinctness of page names) -/

/-- The decimal digit list of a natural number (most significant first). -/
def natDigits (n : Nat) : List Char :=
  if _h : n < 10 then [Nat.digitChar n]
  else natDigits (n / 10) ++ [Nat.digitChar (n % 10)]
decreasing_by exact Nat.div_lt_self (by omega) (by omega)

theorem toDigitsCore_append (fuel : Nat) :
    ∀ n ds, Nat.toDigitsCore 10 fuel n ds = Nat.toDigitsCore 10 fuel n [] ++ ds := by
  induction fuel with
  | zero => intro n ds; rfl
  | succ fuel ih =>
    intro n ds
    show (if n / 10 = 0 then _ else _) = (if n / 10 = 0 then _ else _) ++ ds
    by_cases h : n / 10 = 0
    · rw [if_pos h, if_pos h]; rfl
    · rw [if_neg h, if_neg h, ih (n / 10) [Nat.digitChar (n % 10)],
        ih (n / 10) (Nat.digitChar (n % 10) :: ds), List.append_assoc]
      rfl

theorem toDigitsCore_eq_natDigits (fuel : Nat) :
    ∀ n, n < fuel → Nat.toDigitsCore 10 fuel n [] = natDigits n := by
  induction fuel with
  | zero => intro n h; omega
  | succ fuel ih =>
    intro n h
    show (if n / 10 = 0 then [Nat.digitChar (n % 10)] else _) = _
    by_cases h0 : n / 10 = 0
    · have hn : n < 10 := by omega
      rw [if_pos h0, natDigits, dif_pos hn, Nat.mod_eq_of_lt hn]
    · have hn : ¬(n < 10) := by
        intro hlt
        exact h0 (Nat.div_eq_of_lt hlt)
      rw [if_neg h0, toDigitsCore_append, ih (n / 10) (by omega)]
      conv_rhs => rw [natDigits, dif_neg hn]

/-- Value of a digit list, folding most-significant-first. -/
def digitListVal (l : List Char) : Nat :=
  l.foldl (fun a c => a * 10 + (c.toNat - 48)) 0

theorem digitListVal_append_digit (l : List Char) (c : Char) :
    digitListVal (l ++ [c]) = digitListVal l * 10 + (c.toNat - 48) := by
  unfold digitListVal
  rw [List.foldl_append]
  rfl

theorem digitChar_toNat (d : Nat) (h : d < 10) : (Nat.digitChar d).toNat - 48 = d := by
  interval_cases d <;> decide

theorem digitListVal_natDigits (n : Nat) : digitListVal (natDigits n) = n := by
  induction n using Nat.strong_induction_on with
  | _ n ih =>
    by_cases h : n < 10
    · rw [natDigits, dif_pos h]
      show digitListVal ([] ++ [Nat.digitChar n]) = n
      rw [digitListVal_append_digit, digitChar_toNat n h]
      simp [digitListVal]
    · rw [natDigits, dif_neg h, digitListVal_append_digit,
        ih (n / 10) (Nat.div_lt_self (by omega) (by omega)),
        digitChar_toNat (n % 10) (Nat.mod_lt n (by omega))]
      omega

theorem natRepr_inj (m n : Nat) (h : Nat.repr m = Nat.repr n) : m = n := by
  have hm : Nat.repr m = String.mk (natDigits m) := by
    show String.mk (Nat.toDigitsCore 10 (m + 1) m []) = _
    rw [toDigitsCore_eq_natDigits (m + 1) m (by omega)]
  have hn : Nat.repr n = String.mk (natDigits n) := by
    show String.mk (Nat.toDigitsCore 10 (n + 1) n []) = _
    rw [toDigitsCore_eq_natDigits (n + 1) n (by omega)]
  rw [hm, hn] at h
  have hdig : natDigits m = natDigits n := by
    injection h
  calc m = digitListVal (natDigits m) := (digitListVal_natDigits m).symm
    _ = digitListVal (natDigits n) := by rw [hdig]
    _ = n := digitListVal_natDigits n

theorem pageName_inj (pfx sfx : String) (i j : Nat)
    (h : pageName pfx sfx i = pageName pfx sfx j) : i = j := by
  unfold pageName at h
  have hd : pfx.data ++ ((toString i).data ++ sfx.data)
      = pfx.data ++ ((toString j).data ++ sfx.data) := by
    have h2 := congrArg String.data h
    rw [String.data_append, String.data_append, String.data_append, String.data_append,
      List.append_assoc, List.append_assoc] at h2
    exact h2
  have hd2 : (toString i).data = (toString j).data :=
    List.append_cancel_right (List.append_cancel_left hd)
  exact natRepr_inj i j (String.ext hd2)

/-! ## Page layout: claim C3 -/

theorem sumCounts_nonneg (d : List (String × Int)) (h : ∀ p ∈ d, 0 ≤ p.2) :
    0 ≤ sumCounts d := by
  induction d with
  | nil => simp [sumCounts]
  | cons p d ih =>
    have h1 := h p (by simp)
    have h2 := ih (fun q hq => h q (by simp [hq]))
    simp only [sumCounts, List.map_cons, List.sum_cons]
    simp [sumCounts] at h2
    omega

theorem montageImages_length (dir : String) (d : List (String × Int))
    (h : ∀ p ∈ d, 0 ≤ p.2) :
    (montageImages dir d).length = (sumCounts d).toNat := by
  induction d with
  | nil => simp [montageImages, sumCounts]
  | cons p d ih =>
    have h1 := h p (by simp)
    have h2 := sumCounts_nonneg d (fun q hq => h q (by simp [hq]))
    have h3 := ih (fun q hq => h q (by simp [hq]))
    simp only [montageImages, List.flatMap_cons, List.length_append, List.length_replicate]
    simp only [montageImages] at h3
    rw [h3]
    simp only [sumCounts, List.map_cons, List.sum_cons]
    simp only [sumCounts] at h2
    omega

theorem numPages_toNat (size : Int) (h : 1 ≤ size) :
    (numPages size).toNat = (size.toNat + 8) / 9 := by
  unfold numPages
  rw [Int.fdiv_eq_ediv _ (by omega)]
  omega

theorem mBind_ok {α β : Type} (x : M α) (f : α → M β) (env : Env) (st st2 : St) (a : α)
    (h : x env st = (Except.ok a, st2)) : mBind x f env st = f a env st2 := by
  unfold mBind
  rw [h]

theorem mBind_err {α β : Type} (x : M α) (f : α → M β) (env : Env) (st st2 : St) (e : Er)
    (h : x env st = (Except.error e, st2)) : mBind x f env st = (Except.error e, st2) := by
  unfold mBind
  rw [h]

theorem fsLookup_fsSet (fs : List (String × FsNode)) (p q : String) (v : FsNode) :
    fsLookup (fsSet fs p v) q = if q = p then some v else fsLookup fs q := by
  induction fs with
  | nil =>
    simp only [fsSet, fsLookup]
    by_cases h : p = q
    · rw [if_pos h, if_pos h.symm]
    · rw [if_neg h, if_neg (fun h2 => h h2.symm)]
  | cons e fs ih =>
    obtain ⟨k, m⟩ := e
    simp only [fsSet]
    by_cases hk : k = p
    · subst hk
      rw [if_pos rfl]
      simp only [fsLookup]
      by_cases hq : k = q
      · rw [if_pos hq, if_pos hq.symm]
      · rw [if_neg hq, if_neg hq, if_neg (fun h2 => hq h2.symm)]
    · rw [if_neg hk]
      simp only [fsLookup]
      by_cases hq : k = q
      · rw [if_pos hq, if_pos hq, if_neg (fun h2 => hk (hq.trans h2))]
      · rw [if_neg hq, if_neg hq, ih]

theorem montageOnePage_fresh (images : List String) (pfx sfx : String) (i : Nat)
    (env : Env) (st : St)
    (h : fsLookup st.fs (pageName pfx sfx i) = none) :
    montageOnePage images pfx sfx i env st =
      (Except.ok (pageName pfx sfx i),
       { fs := fsSet st.fs (pageName pfx sfx i) FsNode.extFile,
         events := st.events ++
           [Ev.montage ((images.drop (9 * i)).take 9) (pageName pfx sfx i)] }) := by
  cases henv : env.overwrite <;>
    simp [montageOnePage, mBind, unlessOverwrite, exists_abort, exists_abort1, montageCall,
      mPure, pathExists, h, henv]

theorem make_montage_go_spec (images : List String) (pfx sfx : String) :
    ∀ (idxs : List Nat) (env : Env) (st : St),
      (∀ i ∈ idxs, fsLookup st.fs (pageName pfx sfx i) = none) →
      idxs.Nodup →
      make_montage_go images pfx sfx idxs env st =
        (Except.ok (idxs.map (pageName pfx sfx)),
         { fs := idxs.foldl (fun f i => fsSet f (pageName pfx sfx i) FsNode.extFile) st.fs,
           events := st.events ++ idxs.map (fun i =>
             Ev.montage ((images.drop (9 * i)).take 9) (pageName pfx sfx i)) }) := by
  intro idxs
  induction idxs with
  | nil => intro env st _ _; simp [make_montage_go, mPure]
  | cons i rest ih =>
    intro env st hfresh hnodup
    have h1 := montageOnePage_fresh images pfx sfx i env st (hfresh i (by simp))
    have hfresh2 : ∀ j ∈ rest,
        fsLookup (fsSet st.fs (pageName pfx sfx i) FsNode.extFile) (pageName pfx sfx j)
          = none := by
      intro j hj
      rw [fsLookup_fsSet]
      have hij : j ≠ i := by
        intro hji
        subst hji
        exact (List.nodup_cons.mp hnodup).1 hj
      rw [if_neg (fun hc => hij (pageName_inj pfx sfx j i hc))]
      exact hfresh j (by simp [hj])
    show mBind (montageOnePage images pfx sfx i) _ env st = _
    rw [mBind_ok _ _ env st _ _ h1]
    rw [mBind_ok _ _ env _ _ _ (ih env _ hfresh2 (List.nodup_cons.mp hnodup).2)]
    simp [mPure, List.append_assoc]

/-- C3: for a loaded deck of total count `N ≥ 1`, `make_montage` produces
exactly `ceil(N / 9)` pages; page `i` is named `prefix ++ i ++ suffix` and is
montaged from entries `9 i .. 9 i + 8` of the path list in which each unique
card contributes its cache path `count` times consecutively in first-occurrence
order; the path list has `N` entries, so the last page receives `N mod 9`
images (`9` when `N mod 9 = 0`). -/
theorem c3_make_montage (env : Env) (st : St) (d : List (String × Int)) (size : Int)
    (pfx sfx : String)
    (hcounts : ∀ p ∈ d, 1 ≤ p.2)
    (hsize : size = sumCounts d)
    (hpos : 1 ≤ size)
    (hfresh : ∀ i, i < (numPages size).toNat → fsLookup st.fs (pageName pfx sfx i) = none) :
    (make_montage d size pfx sfx env st =
      (Except.ok ((List.range ((numPages size).toNat)).map (pageName pfx sfx)),
       { fs := (List.range ((numPages size).toNat)).foldl
           (fun f i => fsSet f (pageName pfx sfx i) FsNode.extFile) st.fs,
         events := st.events ++ (List.range ((numPages size).toNat)).map (fun i =>
           Ev.montage (((montageImages env.directory d).drop (9 * i)).take 9)
             (pageName pfx sfx i)) })) ∧
    (numPages size).toNat = (size.toNat + 8) / 9 ∧
    (montageImages env.directory d).length = size.toNat ∧
    ((((montageImages env.directory d).drop (9 * ((numPages size).toNat - 1))).take 9).length
      = if size.toNat % 9 = 0 then 9 else size.toNat % 9) := by
  have hlen : (montageImages env.directory d).length = size.toNat := by
    rw [montageImages_length env.directory d (fun p hp => le_trans (by omega) (hcounts p hp)),
      hsize]
  have hnum : (numPages size).toNat = (size.toNat + 8) / 9 := numPages_toNat size hpos
  refine ⟨?_, hnum, hlen, ?_⟩
  · unfold make_montage
    exact make_montage_go_spec (montageImages env.directory d) pfx sfx
      (List.range ((numPages size).toNat)) env st
      (fun i hi => hfresh i (List.mem_range.mp hi)) (List.nodup_range _)
  · rw [List.length_take, List.length_drop, hlen, hnum]
    have hN : 1 ≤ size.toNat := by omega
    split_ifs with h9 <;> omega

/-- Witness for C3: a ten-card deck yields two pages, `p0.png` with nine images
and `p1.png` with one. -/
theorem c3_make_montage_witness :
    (make_montage [("F", 10)] 10 ("p") (".png")
        ⟨"d", false, fun _ => ReqOut.exn "", fun _ => TextOut.exn "", fun _ => TextOut.exn "",
         fun _ => ReqOut.exn "", fun _ => "n"⟩ ⟨[], []⟩).1
      = Except.ok ["p0.png", "p1.png"] ∧
    (numPages 10).toNat = 2 ∧
    ((((montageImages "d" [("F", 10)]).drop (9 * ((numPages 10).toNat - 1))).take 9).length
      = 1) := by
  have h := c3_make_montage
    ⟨"d", false, fun _ => ReqOut.exn "", fun _ => TextOut.exn "", fun _ => TextOut.exn "",
     fun _ => ReqOut.exn "", fun _ => "n"⟩ ⟨[], []⟩ [("F", 10)] 10 ("p") (".png")
    (by intro p hp; simp at hp; rw [hp]; decide)
    (by rfl) (by decide) (fun i _ => rfl)
  refine ⟨?_, ?_, ?_⟩
  · rw [h.1]
    rfl
  · rw [h.2.1]
    decide
  · rw [h.2.2.2]
    decide

/-! ## Claim C4: cache hits are silent -/

/-- C4: every card whose cache file exists is only logged as a cache hit and
skipped — the card's step changes nothing in the filesystem and appends only
the cache-hit print, so a fully cached deck performs zero network requests and
no normalization. -/
theorem c4_cache_hit_no_network (env : Env) (cards : List String) (st : St)
    (hcached : ∀ c ∈ cards, isFile st.fs (osPathJoin env.directory c) = true) :
    download_img cards env st =
      (Except.ok (),
       { fs := st.fs,
         events := st.events ++ cards.map (fun c => Ev.printMsg ("Found cached: " ++ c)) }) ∧
    (∀ e, e ∈ (download_img cards env st).2.events → e ∉ st.events → e.isNet = false) := by
  have hmain : ∀ (cs : List String) (st1 : St),
      (∀ c ∈ cs, isFile st1.fs (osPathJoin env.directory c) = true) →
      download_img cs env st1 =
        (Except.ok (),
         { fs := st1.fs,
           events := st1.events ++ cs.map (fun c => Ev.printMsg ("Found cached: " ++ c)) }) := by
    intro cs
    induction cs with
    | nil => intro st1 _; simp [download_img, mPure]
    | cons c rest ih =>
      intro st1 hc
      have h1 : downloadOne c env st1 =
          (Except.ok (),
           { st1 with events := st1.events ++ [Ev.printMsg ("Found cached: " ++ c)] }) := by
        simp [downloadOne, check_cache, hc c (by simp)]
      show mBind (downloadOne c) _ env st1 = _
      rw [mBind_ok _ _ env st1 _ _ h1]
      rw [ih ⟨st1.fs, st1.events ++ [Ev.printMsg ("Found cached: " ++ c)]⟩
        (fun x hx => hc x (by simp [hx]))]
      simp [List.append_assoc]
  refine ⟨hmain cards st hcached, ?_⟩
  intro e he hnotin
  rw [hmain cards st hcached] at he
  simp only [List.mem_append] at he
  rcases he with he | he
  · exact absurd he hnotin
  · obtain ⟨c, _, rfl⟩ := List.mem_map.mp he
    rfl

/-- Witness for C4: a two-card deck, both cards cached, performs exactly the
two cache-hit prints — no network events. -/
theorem c4_cache_hit_no_network_witness :
    download_img ["A", "B"]
        ⟨"d", false, fun _ => ReqOut.exn "", fun _ => TextOut.exn "", fun _ => TextOut.exn "",
         fun _ => ReqOut.exn "", fun _ => "n"⟩
        ⟨[("d/A", FsNode.file [1]), ("d/B", FsNode.extFile)], []⟩ =
      (Except.ok (),
       ⟨[("d/A", FsNode.file [1]), ("d/B", FsNode.extFile)],
        [Ev.printMsg ("Found cached: A"), Ev.printMsg ("Found cached: B")]⟩) := by
  have h := c4_cache_hit_no_network
    ⟨"d", false, fun _ => ReqOut.exn "", fun _ => TextOut.exn "", fun _ => TextOut.exn "",
     fun _ => ReqOut.exn "", fun _ => "n"⟩ ["A", "B"]
    ⟨[("d/A", FsNode.file [1]), ("d/B", FsNode.extFile)], []⟩ (by decide)
  rw [h.1]
  rfl

/-! ## Pipeline evaluation lemmas -/

theorem catchExc_ok {α : Type} (x : M α) (h : String → M α) (env : Env) (st st2 : St) (a : α)
    (hx : x env st = (Except.ok a, st2)) : catchExc x h env st = (Except.ok a, st2) := by
  unfold catchExc
  rw [hx]

theorem catchExc_exc {α : Type} (x : M α) (h : String → M α) (env : Env) (st st2 : St)
    (m : String) (hx : x env st = (Except.error (Er.exc m), st2)) :
    catchExc x h env st = h m env st2 := by
  unfold catchExc
  rw [hx]

theorem catchLookup_lookup {α : Type} (x : M α) (h : String → M α) (env : Env) (st st2 : St)
    (m : String) (hx : x env st = (Except.error (Er.lookup m), st2)) :
    catchLookup x h env st = h m env st2 := by
  unfold catchLookup
  rw [hx]

theorem catchLookup_exc {α : Type} (x : M α) (h : String → M α) (env : Env) (st st2 : St)
    (m : String) (hx : x env st = (Except.error (Er.exc m), st2)) :
    catchLookup x h env st = (Except.error (Er.exc m), st2) := by
  unfold catchLookup
  rw [hx]

theorem exists_abort_noop (p : String) (env : Env) (st : St)
    (h : fsLookup st.fs p = none) : exists_abort [p] env st = (Except.ok (), st) := by
  simp [exists_abort, exists_abort1, mBind, mPure, pathExists, h]

theorem unlessOverwrite_fresh (p : String) (env : Env) (st : St)
    (h : fsLookup st.fs p = none) :
    unlessOverwrite (exists_abort [p]) env st = (Except.ok (), st) := by
  cases henv : env.overwrite <;>
    simp [unlessOverwrite, henv, exists_abort, exists_abort1, mBind, mPure, pathExists, h]

theorem writeFile_not_dir (p : String) (content : List Nat) (env : Env) (st : St)
    (h : fsLookup st.fs p ≠ some FsNode.dir) :
    writeFile p content env st =
      (Except.ok (), ⟨fsSet st.fs p (FsNode.file content), st.events ++ [Ev.fsWrite p content]⟩) := by
  unfold writeFile
  cases hl : fsLookup st.fs p with
  | none => rfl
  | some node =>
    cases node with
    | file c2 => rfl
    | extFile => rfl
    | dir => exact absurd hl h

theorem scryfall_resp (card p : String) (env : Env) (st : St) (code : Nat) (content : List Nat)
    (hs : env.scry card = ReqOut.resp code content)
    (hnd : fsLookup st.fs p ≠ some FsNode.dir) :
    Scryfall.save_img card p env st =
      (Except.ok (),
       ⟨fsSet st.fs p (FsNode.file content),
        st.events ++ [Ev.netScry card, Ev.fsWrite p content]⟩) := by
  unfold Scryfall.save_img
  rw [hs]
  refine Eq.trans
    (writeFile_not_dir p content env ⟨st.fs, st.events ++ [Ev.netScry card]⟩ hnd) ?_
  simp [List.append_assoc]

theorem scryfall_exn (card p : String) (env : Env) (st : St) (m : String)
    (hs : env.scry card = ReqOut.exn m) :
    Scryfall.save_img card p env st =
      (Except.error (Er.exc m), ⟨st.fs, st.events ++ [Ev.netScry card]⟩) := by
  unfold Scryfall.save_img
  rw [hs]

theorem mc_lookup_fail (card text m : String) (env : Env) (st : St)
    (hq : env.mcQuery card = TextOut.resp text)
    (hu : MagicCards.img_url text card = Except.error m) :
    MagicCards.get_img_url card env st =
      (Except.error (Er.lookup m), ⟨st.fs, st.events ++ [Ev.netMC card]⟩) := by
  unfold MagicCards.get_img_url
  rw [hq]
  simp only [hu]

theorem mc_exn (card m : String) (env : Env) (st : St)
    (hq : env.mcQuery card = TextOut.exn m) :
    MagicCards.get_img_url card env st =
      (Except.error (Er.exc m), ⟨st.fs, st.events ++ [Ev.netMC card]⟩) := by
  unfold MagicCards.get_img_url
  rw [hq]

theorem gatherer_resp (card rurl : String) (env : Env) (st : St)
    (hq : env.gthQuery card = TextOut.resp rurl) :
    Gatherer.get_img_url card env st =
      (Except.ok (gathererImgUrl rurl), ⟨st.fs, st.events ++ [Ev.netGatherer card]⟩) := by
  unfold Gatherer.get_img_url
  rw [hq]

theorem save_img_ok (url fn : String) (env : Env) (st : St) (code : Nat) (content : List Nat)
    (hf : env.fetch url = ReqOut.resp code content) (hne : content ≠ [])
    (hnd : fsLookup st.fs fn ≠ some FsNode.dir) :
    save_img url fn env st =
      (Except.ok (),
       ⟨fsSet st.fs fn (FsNode.file content),
        st.events ++ [Ev.netFetch url, Ev.fsWrite fn content]⟩) := by
  unfold save_img
  rw [hf]
  show (if content.length = 0 then
      (Except.ok (),
       ({ fs := st.fs,
          events := (st.events ++ [Ev.netFetch url]) ++
            [Ev.printMsg ("Error: Incorrect url " ++ url ++ " for " ++ fn)] } : St))
    else writeFile fn content env ⟨st.fs, st.events ++ [Ev.netFetch url]⟩) = _
  rw [if_neg (by simpa using hne)]
  refine Eq.trans
    (writeFile_not_dir fn content env ⟨st.fs, st.events ++ [Ev.netFetch url]⟩ hnd) ?_
  simp [List.append_assoc]

theorem save_img_empty (url fn : String) (env : Env) (st : St) (code : Nat)
    (hf : env.fetch url = ReqOut.resp code []) :
    save_img url fn env st =
      (Except.ok (),
       ⟨st.fs,
        st.events ++ [Ev.netFetch url,
          Ev.printMsg ("Error: Incorrect url " ++ url ++ " for " ++ fn)]⟩) := by
  unfold save_img
  rw [hf]
  show (if ([] : List Nat).length = 0 then
      (Except.ok (),
       ({ fs := st.fs,
          events := (st.events ++ [Ev.netFetch url]) ++
            [Ev.printMsg ("Error: Incorrect url " ++ url ++ " for " ++ fn)] } : St))
    else writeFile fn [] env ⟨st.fs, st.events ++ [Ev.netFetch url]⟩) = _
  simp [List.append_assoc]

theorem downloadOne_uncached (card : String) (env : Env) (st : St)
    (hfresh : fsLookup st.fs (osPathJoin env.directory card) = none) :
    downloadOne card env st =
      mBind
        (catchExc (Scryfall.save_img card (osPathJoin env.directory card)) (fun e =>
          mBind (emit (Ev.logInfo e)) (fun _ =>
            mBind
              (catchLookup (MagicCards.get_img_url card) (fun e2 =>
                mBind (emit (Ev.logInfo e2)) (fun _ => Gatherer.get_img_url card)))
              (fun url =>
                mBind (unlessOverwrite (exists_abort [osPathJoin env.directory card])) (fun _ =>
                  save_img url (osPathJoin env.directory card))))))
        (fun _ => ImageMagic.resize (osPathJoin env.directory card)) env
        ⟨st.fs, st.events ++ [Ev.printMsg ("Downloading: " ++ card)]⟩ := by
  have hmiss : check_cache st.fs env.directory card = false := by
    simp [check_cache, isFile, hfresh]
  show (if check_cache st.fs env.directory card then _ else _) = _
  rw [hmiss, if_neg (by decide : ¬(false = true))]
  have hemit : emit (Ev.printMsg ("Downloading: " ++ card)) env st
      = (Except.ok (), ⟨st.fs, st.events ++ [Ev.printMsg ("Downloading: " ++ card)]⟩) := rfl
  rw [mBind_ok _ _ env st _ _ hemit]
  rw [mBind_ok _ _ env _ _ _
    (exists_abort_noop (osPathJoin env.directory card) env
      ⟨st.fs, st.events ++ [Ev.printMsg ("Downloading: " ++ card)]⟩ hfresh)]

/-! ## Claim C1: the resolver fallback chain -/

/-- C1 (amended): for an uncached card the three resolvers are tried in the
fixed order Scryfall, MagicCards, Gatherer, stopping at the first that
completes without raising.  (a) Whenever the Scryfall request returns a
response — with any status code, 2xx or not — its body is written to the cache
and no other resolver is contacted.  (b) When the Scryfall request raises,
MagicCards signals `LookupError`, and Gatherer answers, the bytes fetched from
the synthesized Gatherer URL are cached, so the card still produces a cached
file at the end of the chain. -/
theorem c1_fallback_chain (env : Env) (st : St) (card : String)
    (hfresh : fsLookup st.fs (osPathJoin env.directory card) = none) :
    (∀ (code : Nat) (content : List Nat), env.scry card = ReqOut.resp code content →
      downloadOne card env st =
        (Except.ok (),
         ⟨fsSet st.fs (osPathJoin env.directory card) (FsNode.file content),
          st.events ++ [Ev.printMsg ("Downloading: " ++ card), Ev.netScry card,
            Ev.fsWrite (osPathJoin env.directory card) content,
            Ev.resizeImg (osPathJoin env.directory card)]⟩)) ∧
    (∀ (m1 text m2 rurl : String) (code : Nat) (content : List Nat),
      env.scry card = ReqOut.exn m1 →
      env.mcQuery card = TextOut.resp text →
      MagicCards.img_url text card = Except.error m2 →
      env.gthQuery card = TextOut.resp rurl →
      env.fetch (gathererImgUrl rurl) = ReqOut.resp code content →
      content ≠ [] →
      downloadOne card env st =
        (Except.ok (),
         ⟨fsSet st.fs (osPathJoin env.directory card) (FsNode.file content),
          st.events ++ [Ev.printMsg ("Downloading: " ++ card), Ev.netScry card,
            Ev.logInfo m1, Ev.netMC card, Ev.logInfo m2, Ev.netGatherer card,
            Ev.netFetch (gathererImgUrl rurl),
            Ev.fsWrite (osPathJoin env.directory card) content,
            Ev.resizeImg (osPathJoin env.directory card)]⟩)) := by
  constructor
  · intro code content hs
    simp [downloadOne, check_cache, isFile, hfresh, mBind, mPure, emit, exists_abort,
      exists_abort1, pathExists, catchExc, catchLookup, Scryfall.save_img, writeFile,
      ImageMagic.resize, hs, List.append_assoc]
  · intro m1 text m2 rurl code content hs hq hu hg hf hne
    have hlen : content.length ≠ 0 := by simpa using hne
    cases henv : env.overwrite <;>
      simp [downloadOne, check_cache, isFile, hfresh, mBind, mPure, emit, exists_abort,
        exists_abort1, pathExists, catchExc, catchLookup, Scryfall.save_img, writeFile,
        MagicCards.get_img_url, Gatherer.get_img_url, save_img, unlessOverwrite,
        ImageMagic.resize, hs, hq, hu, hg, hf, hlen, henv, List.append_assoc]

/-- Witness for C1: (a) a Scryfall response is cached directly; (b) the full
chain Scryfall-exception → MagicCards-NotFound → Gatherer-success still caches
the card. -/
theorem c1_fallback_chain_witness :
    downloadOne "A"
        ⟨"", false, fun _ => ReqOut.resp 200 [7], fun _ => TextOut.exn "", fun _ => TextOut.exn "",
         fun _ => ReqOut.exn "", fun _ => "n"⟩ ⟨[], []⟩ =
      (Except.ok (),
       ⟨[("A", FsNode.file [7])],
        [Ev.printMsg ("Downloading: A"), Ev.netScry "A", Ev.fsWrite "A" [7],
         Ev.resizeImg "A"]⟩) ∧
    downloadOne "A"
        ⟨"", false, fun _ => ReqOut.exn "boom", fun _ => TextOut.resp "",
         fun _ => TextOut.resp "u=42", fun _ => ReqOut.resp 200 [7, 7], fun _ => "n"⟩
        ⟨[], []⟩ =
      (Except.ok (),
       ⟨[("A", FsNode.file [7, 7])],
        [Ev.printMsg ("Downloading: A"), Ev.netScry "A", Ev.logInfo "boom", Ev.netMC "A",
         Ev.logInfo ("Could not find image for: A"), Ev.netGatherer "A",
         Ev.netFetch (gathererImgUrl "u=42"), Ev.fsWrite "A" [7, 7], Ev.resizeImg "A"]⟩) := by
  constructor
  · have h := (c1_fallback_chain
      ⟨"", false, fun _ => ReqOut.resp 200 [7], fun _ => TextOut.exn "", fun _ => TextOut.exn "",
       fun _ => ReqOut.exn "", fun _ => "n"⟩ ⟨[], []⟩ "A" rfl).1 200 [7] rfl
    exact h.trans rfl
  · have h := (c1_fallback_chain
      ⟨"", false, fun _ => ReqOut.exn "boom", fun _ => TextOut.resp "",
       fun _ => TextOut.resp "u=42", fun _ => ReqOut.resp 200 [7, 7], fun _ => "n"⟩
      ⟨[], []⟩ "A" rfl).2 "boom" "" ("Could not find image for: A") "u=42" 200 [7, 7]
      rfl rfl (by rfl) rfl rfl (by decide)
    exact h.trans rfl

/-- Counterexample to C1 as stated: a non-2xx Scryfall response does *not*
fall through to resolver 2.  Here Scryfall answers 404 with body `[5]` while
the MagicCards result page would match the card; the pipeline caches the 404
body, never contacts MagicCards, and reports success. -/
theorem c1_counterexample :
    (downloadOne "A"
        ⟨"", false, fun _ => ReqOut.resp 404 [5],
         fun _ => TextOut.resp ("img src=\"u\" alt=\"A\""), fun _ => TextOut.resp "",
         fun _ => ReqOut.exn "", fun _ => "n"⟩ ⟨[], []⟩).2.events =
      [Ev.printMsg ("Downloading: A"), Ev.netScry "A", Ev.fsWrite "A" [5],
       Ev.resizeImg "A"] ∧
    Ev.netMC "A" ∉
      (downloadOne "A"
        ⟨"", false, fun _ => ReqOut.resp 404 [5],
         fun _ => TextOut.resp ("img src=\"u\" alt=\"A\""), fun _ => TextOut.resp "",
         fun _ => ReqOut.exn "", fun _ => "n"⟩ ⟨[], []⟩).2.events ∧
    fsLookup
      (downloadOne "A"
        ⟨"", false, fun _ => ReqOut.resp 404 [5],
         fun _ => TextOut.resp ("img src=\"u\" alt=\"A\""), fun _ => TextOut.resp "",
         fun _ => ReqOut.exn "", fun _ => "n"⟩ ⟨[], []⟩).2.fs "A"
      = some (FsNode.file [5]) := by
  refine ⟨rfl, by decide, rfl⟩

/-! ## Claim C2: per-card failure and the batch -/

/-- C2 (amended): when every resolver fails *without raising a transport
error* — Scryfall raises, MagicCards signals NotFound, Gatherer answers but the
final byte fetch returns an empty body — the pipeline logs the error naming
the failed URL and the card's path, writes no cache file, lets no exception
escape the card's step, and processing continues with the remaining cards.
(A transport exception from MagicCards, Gatherer or the byte fetch instead
escapes `download_img`; see the counterexample.) -/
theorem c2_empty_fetch_continues (env : Env) (st : St) (card : String) (rest : List String)
    (m1 text m2 rurl : String) (code : Nat)
    (hfresh : fsLookup st.fs (osPathJoin env.directory card) = none)
    (hs : env.scry card = ReqOut.exn m1)
    (hq : env.mcQuery card = TextOut.resp text)
    (hu : MagicCards.img_url text card = Except.error m2)
    (hg : env.gthQuery card = TextOut.resp rurl)
    (hf : env.fetch (gathererImgUrl rurl) = ReqOut.resp code []) :
    downloadOne card env st =
      (Except.ok (),
       ⟨st.fs,
        st.events ++ [Ev.printMsg ("Downloading: " ++ card), Ev.netScry card, Ev.logInfo m1,
          Ev.netMC card, Ev.logInfo m2, Ev.netGatherer card,
          Ev.netFetch (gathererImgUrl rurl),
          Ev.printMsg ("Error: Incorrect url " ++ gathererImgUrl rurl ++ " for "
            ++ osPathJoin env.directory card),
          Ev.resizeImg (osPathJoin env.directory card)]⟩) ∧
    download_img (card :: rest) env st =
      download_img rest env
        ⟨st.fs,
         st.events ++ [Ev.printMsg ("Downloading: " ++ card), Ev.netScry card, Ev.logInfo m1,
           Ev.netMC card, Ev.logInfo m2, Ev.netGatherer card,
           Ev.netFetch (gathererImgUrl rurl),
           Ev.printMsg ("Error: Incorrect url " ++ gathererImgUrl rurl ++ " for "
             ++ osPathJoin env.directory card),
           Ev.resizeImg (osPathJoin env.directory card)]⟩ := by
  have h1 : downloadOne card env st =
      (Except.ok (),
       ⟨st.fs,
        st.events ++ [Ev.printMsg ("Downloading: " ++ card), Ev.netScry card, Ev.logInfo m1,
          Ev.netMC card, Ev.logInfo m2, Ev.netGatherer card,
          Ev.netFetch (gathererImgUrl rurl),
          Ev.printMsg ("Error: Incorrect url " ++ gathererImgUrl rurl ++ " for "
            ++ osPathJoin env.directory card),
          Ev.resizeImg (osPathJoin env.directory card)]⟩) := by
    cases henv : env.overwrite <;>
      simp [downloadOne, check_cache, isFile, hfresh, mBind, mPure, emit, exists_abort,
        exists_abort1, pathExists, catchExc, catchLookup, Scryfall.save_img, writeFile,
        MagicCards.get_img_url, Gatherer.get_img_url, save_img, unlessOverwrite,
        ImageMagic.resize, hs, hq, hu, hg, hf, henv, List.append_assoc]
  refine ⟨h1, ?_⟩
  show mBind (downloadOne card) _ env st = _
  rw [mBind_ok _ _ env st _ _ h1]

/-- Witness for C2: with an empty final fetch for card `A`, the pipeline logs
the error, writes nothing, and still processes the cached card `B`. -/
theorem c2_empty_fetch_continues_witness :
    download_img ["A", "B"]
        ⟨"d", false, fun _ => ReqOut.exn "boom", fun _ => TextOut.resp "",
         fun _ => TextOut.resp "u=42", fun _ => ReqOut.resp 200 [], fun _ => "n"⟩
        ⟨[("d/B", FsNode.extFile)], []⟩ =
      download_img ["B"]
        ⟨"d", false, fun _ => ReqOut.exn "boom", fun _ => TextOut.resp "",
         fun _ => TextOut.resp "u=42", fun _ => ReqOut.resp 200 [], fun _ => "n"⟩
        ⟨[("d/B", FsNode.extFile)],
         [Ev.printMsg ("Downloading: A"), Ev.netScry "A", Ev.logInfo "boom", Ev.netMC "A",
          Ev.logInfo ("Could not find image for: A"), Ev.netGatherer "A",
          Ev.netFetch (gathererImgUrl "u=42"),
          Ev.printMsg ("Error: Incorrect url " ++ gathererImgUrl "u=42" ++ " for d/A"),
          Ev.resizeImg "d/A"]⟩ ∧
    (download_img ["A", "B"]
        ⟨"d", false, fun _ => ReqOut.exn "boom", fun _ => TextOut.resp "",
         fun _ => TextOut.resp "u=42", fun _ => ReqOut.resp 200 [], fun _ => "n"⟩
        ⟨[("d/B", FsNode.extFile)], []⟩).1 = Except.ok () := by
  have h := c2_empty_fetch_continues
    ⟨"d", false, fun _ => ReqOut.exn "boom", fun _ => TextOut.resp "",
     fun _ => TextOut.resp "u=42", fun _ => ReqOut.resp 200 [], fun _ => "n"⟩
    ⟨[("d/B", FsNode.extFile)], []⟩ "A" ["B"] "boom" ""
    ("Could not find image for: A") "u=42" 200 rfl rfl rfl (by rfl) rfl rfl
  constructor
  · exact h.2.trans rfl
  · rw [h.2]
    rfl

/-- Counterexample to C2 as stated: when resolver 1 raises and resolver 2
fails with a *transport* error (not NotFound), the exception escapes
`download_img` and the batch aborts — card `B` is never processed. -/
theorem c2_counterexample :
    download_img ["A", "B"]
        ⟨"", false, fun _ => ReqOut.exn "boom", fun _ => TextOut.exn "conn",
         fun _ => TextOut.resp "", fun _ => ReqOut.exn "", fun _ => "n"⟩ ⟨[], []⟩ =
      (Except.error (Er.exc "conn"),
       ⟨[], [Ev.printMsg ("Downloading: A"), Ev.netScry "A", Ev.logInfo "boom",
         Ev.netMC "A"]⟩) ∧
    Ev.printMsg ("Downloading: B") ∉
      (download_img ["A", "B"]
        ⟨"", false, fun _ => ReqOut.exn "boom", fun _ => TextOut.exn "conn",
         fun _ => TextOut.resp "", fun _ => ReqOut.exn "", fun _ => "n"⟩ ⟨[], []⟩).2.events := by
  refine ⟨rfl, by decide⟩

/-! ## Claim C5: zero-length response bodies -/

/-- C5 (amended): the plain byte fetch `save_img` — the path used after
resolvers 2 and 3 — treats a zero-length body as an error: it logs the bad URL
and the destination, abandons the fetch, and writes no file (the filesystem is
unchanged); a nonempty body is written to the destination.  (The structured-API
resolver `Scryfall.save_img`, by contrast, performs no such check and will
write an empty body to the cache; see the counterexample.) -/
theorem c5_save_img_empty_guard :
    (∀ (env : Env) (st : St) (url fn : String) (code : Nat),
      env.fetch url = ReqOut.resp code [] →
      save_img url fn env st =
        (Except.ok (),
         ⟨st.fs, st.events ++ [Ev.netFetch url,
           Ev.printMsg ("Error: Incorrect url " ++ url ++ " for " ++ fn)]⟩)) ∧
    (∀ (env : Env) (st : St) (url fn : String) (code : Nat) (content : List Nat),
      env.fetch url = ReqOut.resp code content → content ≠ [] →
      fsLookup st.fs fn ≠ some FsNode.dir →
      save_img url fn env st =
        (Except.ok (),
         ⟨fsSet st.fs fn (FsNode.file content),
          st.events ++ [Ev.netFetch url, Ev.fsWrite fn content]⟩)) := by
  constructor
  · intro env st url fn code hf
    exact save_img_empty url fn env st code hf
  · intro env st url fn code content hf hne hnd
    exact save_img_ok url fn env st code content hf hne hnd

/-- Witness for C5: an empty body for `u` is logged and not written; a
one-byte body is written. -/
theorem c5_save_img_empty_guard_witness :
    save_img "u" "f"
        ⟨"", false, fun _ => ReqOut.exn "", fun _ => TextOut.exn "", fun _ => TextOut.exn "",
         fun _ => ReqOut.resp 200 [], fun _ => "n"⟩ ⟨[], []⟩ =
      (Except.ok (),
       ⟨[], [Ev.netFetch "u", Ev.printMsg ("Error: Incorrect url u for f")]⟩) ∧
    save_img "u" "f"
        ⟨"", false, fun _ => ReqOut.exn "", fun _ => TextOut.exn "", fun _ => TextOut.exn "",
         fun _ => ReqOut.resp 200 [3], fun _ => "n"⟩ ⟨[], []⟩ =
      (Except.ok (), ⟨[("f", FsNode.file [3])], [Ev.netFetch "u", Ev.fsWrite "f" [3]]⟩) := by
  constructor
  · have h := c5_save_img_empty_guard.1
      ⟨"", false, fun _ => ReqOut.exn "", fun _ => TextOut.exn "", fun _ => TextOut.exn "",
       fun _ => ReqOut.resp 200 [], fun _ => "n"⟩ ⟨[], []⟩ "u" "f" 200 rfl
    exact h.trans rfl
  · have h := c5_save_img_empty_guard.2
      ⟨"", false, fun _ => ReqOut.exn "", fun _ => TextOut.exn "", fun _ => TextOut.exn "",
       fun _ => ReqOut.resp 200 [3], fun _ => "n"⟩ ⟨[], []⟩ "u" "f" 200 [3] rfl
      (by decide) (by rw [show fsLookup [] "f" = none from rfl]; intro hc; cases hc)
    exact h.trans rfl

/-- Counterexample to C5 as stated: the structured-API resolver writes the
response body with no emptiness check, so a zero-length Scryfall body produces
an empty cache file. -/
theorem c5_counterexample :
    Scryfall.save_img "A" "A"
        ⟨"", false, fun _ => ReqOut.resp 200 [], fun _ => TextOut.exn "",
         fun _ => TextOut.exn "", fun _ => ReqOut.exn "", fun _ => "n"⟩ ⟨[], []⟩ =
      (Except.ok (), ⟨[("A", FsNode.file [])], [Ev.netScry "A", Ev.fsWrite "A" []]⟩) ∧
    fsLookup
      (Scryfall.save_img "A" "A"
        ⟨"", false, fun _ => ReqOut.resp 200 [], fun _ => TextOut.exn "",
         fun _ => TextOut.exn "", fun _ => ReqOut.exn "", fun _ => "n"⟩ ⟨[], []⟩).2.fs "A"
      = some (FsNode.file []) := by
  exact ⟨rfl, rfl⟩

/-! ## Claim C6: overwrite confirmation -/

/-- C6 (amended): with overwrite disabled, every write path whose destination
already exists prompts for confirmation before writing, and any answer other
than `"y"` aborts the run before the existing file is modified, printing
`Aborting` — but the process exits with status 0, not a non-zero status.
(a) `merge_pdf`; (b) `make_montage` (first page); (c) `download_img`, where a
cache path that exists as a regular file is instead treated as a cache hit and
never rewritten, and a path that exists as a non-file prompts and aborts. -/
theorem c6_overwrite_guard (env : Env) (st : St)
    (henv : env.overwrite = false) :
    (∀ (images : List String) (output : String),
      pathExists st.fs (withPdfExt output) = true →
      env.answer (withPdfExt output) ≠ "y" →
      merge_pdf images output env st =
        (Except.error (Er.sysExit 0),
         ⟨st.fs, st.events ++ [Ev.prompt (withPdfExt output), Ev.printMsg "Aborting"]⟩)) ∧
    (∀ (d : List (String × Int)) (size : Int) (pfx sfx : String),
      1 ≤ size →
      pathExists st.fs (pageName pfx sfx 0) = true →
      env.answer (pageName pfx sfx 0) ≠ "y" →
      make_montage d size pfx sfx env st =
        (Except.error (Er.sysExit 0),
         ⟨st.fs, st.events ++ [Ev.prompt (pageName pfx sfx 0), Ev.printMsg "Aborting"]⟩)) ∧
    (∀ card : String,
      isFile st.fs (osPathJoin env.directory card) = true →
      downloadOne card env st =
        (Except.ok (),
         ⟨st.fs, st.events ++ [Ev.printMsg ("Found cached: " ++ card)]⟩)) ∧
    (∀ card : String,
      isFile st.fs (osPathJoin env.directory card) = false →
      pathExists st.fs (osPathJoin env.directory card) = true →
      env.answer (osPathJoin env.directory card) ≠ "y" →
      downloadOne card env st =
        (Except.error (Er.sysExit 0),
         ⟨st.fs, st.events ++ [Ev.printMsg ("Downloading: " ++ card),
           Ev.prompt (osPathJoin env.directory card), Ev.printMsg "Aborting"]⟩)) := by
  refine ⟨?_, ?_, ?_, ?_⟩
  · intro images output hex hans
    simp [merge_pdf, mBind, unlessOverwrite, henv, exists_abort, exists_abort1, mPure,
      hex, hans, List.append_assoc]
  · intro d size pfx sfx hsz hex hans
    have hn : ∃ m, (numPages size).toNat = m + 1 := by
      rw [numPages_toNat size hsz]
      have : 1 ≤ size.toNat := by omega
      exact ⟨(size.toNat + 8) / 9 - 1, by omega⟩
    obtain ⟨m, hm⟩ := hn
    unfold make_montage
    rw [hm, List.range_succ_eq_map]
    simp [make_montage_go, montageOnePage, mBind, unlessOverwrite, henv, exists_abort,
      exists_abort1, mPure, hex, hans, List.append_assoc]
  · intro card hfile
    simp [downloadOne, check_cache, hfile]
  · intro card hfile hex hans
    simp [downloadOne, check_cache, hfile, mBind, emit, exists_abort, exists_abort1,
      hex, hans, List.append_assoc]

/-- Witness for C6 at a concrete state: `merge_pdf` to an existing `out.pdf`
with answer `n` prompts and aborts with exit status 0, leaving the filesystem
unchanged. -/
theorem c6_overwrite_guard_witness :
    merge_pdf ["p0.png"] "out"
        ⟨"", false, fun _ => ReqOut.exn "", fun _ => TextOut.exn "", fun _ => TextOut.exn "",
         fun _ => ReqOut.exn "", fun _ => "n"⟩ ⟨[("out.pdf", FsNode.extFile)], []⟩ =
      (Except.error (Er.sysExit 0),
       ⟨[("out.pdf", FsNode.extFile)],
        [Ev.prompt "out.pdf", Ev.printMsg "Aborting"]⟩) := by
  have h := (c6_overwrite_guard
    ⟨"", false, fun _ => ReqOut.exn "", fun _ => TextOut.exn "", fun _ => TextOut.exn "",
     fun _ => ReqOut.exn "", fun _ => "n"⟩ ⟨[("out.pdf", FsNode.extFile)], []⟩ rfl).1
    ["p0.png"] "out" (by rfl) (by decide)
  exact h.trans rfl

/-- Counterexample to C6 as stated: the abort after a declined overwrite
prompt calls `exit(0)` — the exit status is 0, not non-zero. -/
theorem c6_counterexample :
    merge_pdf ["p0.png"] "out"
        ⟨"", false, fun _ => ReqOut.exn "", fun _ => TextOut.exn "", fun _ => TextOut.exn "",
         fun _ => ReqOut.exn "", fun _ => "y2"⟩ ⟨[("out.pdf", FsNode.extFile)], []⟩ =
      (Except.error (Er.sysExit 0),
       ⟨[("out.pdf", FsNode.extFile)],
        [Ev.prompt "out.pdf", Ev.printMsg "Aborting"]⟩) ∧
    (∀ code : Nat,
      (merge_pdf ["p0.png"] "out"
          ⟨"", false, fun _ => ReqOut.exn "", fun _ => TextOut.exn "", fun _ => TextOut.exn "",
           fun _ => ReqOut.exn "", fun _ => "y2"⟩ ⟨[("out.pdf", FsNode.extFile)], []⟩).1
        = Except.error (Er.sysExit code) → code = 0) := by
  refine ⟨rfl, ?_⟩
  intro code hc
  have h2 : (Except.error (Er.sysExit 0) : Except Er Unit) = Except.error (Er.sysExit code) := hc
  injection h2 with h3
  injection h3 with h4
  exact h4.symm

/-! ## Claim C7: the unconditional prompt in `download_img` -/

/-- C7 (code bug): the first `exists_abort(path)` in `download_img` (line 175)
runs regardless of `self._overwrite`.  With `--overwrite` enabled and the cache
path existing as a non-regular-file (here a directory), the run still prompts
for confirmation — contradicting the option's own help text, "overwrite files
without asking". -/
theorem c7_overwrite_prompt_bug :
    (Env.overwrite
      ⟨"d", true, fun _ => ReqOut.exn "", fun _ => TextOut.exn "", fun _ => TextOut.exn "",
       fun _ => ReqOut.exn "", fun _ => "n"⟩ = true) ∧
    download_img ["X"]
        ⟨"d", true, fun _ => ReqOut.exn "", fun _ => TextOut.exn "", fun _ => TextOut.exn "",
         fun _ => ReqOut.exn "", fun _ => "n"⟩ ⟨[("d/X", FsNode.dir)], []⟩ =
      (Except.error (Er.sysExit 0),
       ⟨[("d/X", FsNode.dir)],
        [Ev.printMsg ("Downloading: X"), Ev.prompt "d/X", Ev.printMsg "Aborting"]⟩) ∧
    Ev.prompt "d/X" ∈
      (download_img ["X"]
        ⟨"d", true, fun _ => ReqOut.exn "", fun _ => TextOut.exn "", fun _ => TextOut.exn "",
         fun _ => ReqOut.exn "", fun _ => "n"⟩ ⟨[("d/X", FsNode.dir)], []⟩).2.events := by
  exact ⟨rfl, rfl, by decide⟩

/-! ## Claim C8: the `img_url` pattern match -/

theorem accept_lits (l : List Char) : ∀ s, Rx.accept (Rx.lits l) s = (dropLits l s).toList := by
  induction l with
  | nil => intro s; rfl
  | cons c l ih =>
    intro s
    show ((Rx.lit c).accept s).flatMap (Rx.accept (Rx.lits l)) = _
    cases s with
    | nil => rfl
    | cons x t =>
      show (if x = c then [t] else []).flatMap (Rx.accept (Rx.lits l)) = (dropLits (c :: l) (x :: t)).toList
      by_cases hx : x = c
      · rw [if_pos hx]
        show Rx.accept (Rx.lits l) t ++ [] = _
        rw [List.append_nil, ih t]
        show _ = (if x = c then dropLits l t else none).toList
        rw [if_pos hx]
      · rw [if_neg hx]
        show [] = (if x = c then dropLits l t else none).toList
        rw [if_neg hx]
        rfl

theorem accept_lit (c : Char) (s : List Char) :
    Rx.accept (Rx.lit c) s = (dropLits [c] s).toList := by
  cases s with
  | nil => rfl
  | cons x t =>
    show (if x = c then [t] else []) = (if x = c then dropLits [] t else none).toList
    by_cases hx : x = c
    · rw [if_pos hx, if_pos hx]; rfl
    · rw [if_neg hx, if_neg hx]; rfl

theorem compileCard_plain (l : List Char) (h : ∀ c ∈ l, plainChar c = true) :
    compileCard l = some (Rx.lits l) := by
  induction l with
  | nil => rfl
  | cons c l ih =>
    have hc := h c (by simp)
    have hdot : c ≠ '.' := by
      intro hd
      rw [hd] at hc
      exact absurd hc (by decide)
    have hmeta : metaChars.contains c = false := by
      unfold plainChar at hc
      revert hc
      cases metaChars.contains c <;> simp
    show (match compileCard l with
      | none => none
      | some r =>
        if c = '.' then some (Rx.seq Rx.any r)
        else if metaChars.contains c then none
        else some (Rx.seq (Rx.lit c) r)) = _
    rw [ih (fun x hx => h x (by simp [hx]))]
    show (if c = '.' then some (Rx.seq Rx.any (Rx.lits l))
      else if metaChars.contains c then none
      else some (Rx.seq (Rx.lit c) (Rx.lits l))) = _
    rw [if_neg hdot, if_neg (by rw [hmeta]; intro hcon; cases hcon)]
    rfl

theorem chomp1_eq_dropWhile (p : Char → Bool) (s t : List Char)
    (h : chomp1 p s = some t) : t = s.dropWhile p := by
  cases s with
  | nil => cases h
  | cons c u =>
    have h2 : (if p c = true then some (u.dropWhile p) else none) = some t := h
    by_cases hc : p c = true
    · rw [if_pos hc] at h2
      injection h2 with h3
      rw [← h3, List.dropWhile_cons, if_pos hc]
    · rw [if_neg hc] at h2
      cases h2

theorem plusSuffixes_flatMap (p : Char → Bool) (r : Rx)
    (hr : ∀ (x : Char) (t2 : List Char), p x = true → Rx.accept r (x :: t2) = []) :
    ∀ s : List Char,
      (plusSuffixes p s).flatMap (Rx.accept r) =
        (match chomp1 p s with
         | some t => Rx.accept r t
         | none => []) := by
  intro s
  induction s with
  | nil => rfl
  | cons c t ih =>
    by_cases hc : p c = true
    · rw [show plusSuffixes p (c :: t) = plusSuffixes p t ++ [t] from by simp [plusSuffixes, hc]]
      rw [List.flatMap_append]
      rw [show (chomp1 p (c :: t) : Option (List Char)) = some (t.dropWhile p) from by simp [chomp1, hc]]
      cases t with
      | nil => simp [plusSuffixes]
      | cons d u =>
        by_cases hd : p d = true
        · rw [ih]
          rw [show (chomp1 p (d :: u) : Option (List Char)) = some (u.dropWhile p) from by simp [chomp1, hd]]
          rw [show ([d :: u] : List (List Char)).flatMap (Rx.accept r)
              = Rx.accept r (d :: u) ++ [] from rfl]
          rw [hr d u hd, List.append_nil, List.append_nil]
          rw [show (d :: u).dropWhile p = u.dropWhile p from by
            rw [List.dropWhile_cons, if_pos hd]]
        · rw [show plusSuffixes p (d :: u) = [] from by simp [plusSuffixes, hd]]
          rw [show (d :: u).dropWhile p = d :: u from by
            rw [List.dropWhile_cons, if_neg hd]]
          simp
    · rw [show plusSuffixes p (c :: t) = [] from by simp [plusSuffixes, hc]]
      rw [show (chomp1 p (c :: t) : Option (List Char)) = none from by simp [chomp1, hc]]
      rfl

theorem findSome_append {α β : Type} (l1 l2 : List α) (f : α → Option β) :
    (l1 ++ l2).findSome? f =
      (match l1.findSome? f with
       | some b => some b
       | none => l2.findSome? f) := by
  induction l1 with
  | nil => rfl
  | cons a l ih =>
    rw [List.cons_append, List.findSome?_cons, List.findSome?_cons]
    cases f a with
    | none => exact ih
    | some b => rfl

theorem plusSuffixes_findSome {β : Type} (p : Char → Bool) (f : List Char → Option β)
    (hf : ∀ (x : Char) (t2 : List Char), p x = true → f (x :: t2) = none) :
    ∀ s : List Char,
      (plusSuffixes p s).findSome? f =
        (match chomp1 p s with
         | some t => f t
         | none => none) := by
  intro s
  induction s with
  | nil => rfl
  | cons c t ih =>
    by_cases hc : p c = true
    · rw [show plusSuffixes p (c :: t) = plusSuffixes p t ++ [t] from by simp [plusSuffixes, hc]]
      rw [findSome_append]
      rw [show (chomp1 p (c :: t) : Option (List Char)) = some (t.dropWhile p) from by simp [chomp1, hc]]
      cases t with
      | nil =>
        show List.findSome? f [[]] = f []
        rw [List.findSome?_cons]
        cases hfx : f [] <;> rfl
      | cons d u =>
        by_cases hd : p d = true
        · rw [ih]
          rw [show (chomp1 p (d :: u) : Option (List Char)) = some (u.dropWhile p) from by simp [chomp1, hd]]
          rw [show ([d :: u] : List (List Char)).findSome? f = f (d :: u) from by
            rw [List.findSome?_cons]; cases h : f (d :: u) <;> rfl]
          rw [hf d u hd]
          rw [show (d :: u).dropWhile p = u.dropWhile p from by
            rw [List.dropWhile_cons, if_pos hd]]
          show (match f (u.dropWhile p) with
            | some b => some b
            | none => none) = f (u.dropWhile p)
          cases hfx : f (u.dropWhile p) <;> rfl
        · rw [show plusSuffixes p (d :: u) = [] from by simp [plusSuffixes, hd]]
          rw [show (d :: u).dropWhile p = d :: u from by
            rw [List.dropWhile_cons, if_neg hd]]
          show (match f (d :: u) with
            | some b => some b
            | none => ([] : List (List Char)).findSome? f) = f (d :: u)
          cases f (d :: u) <;> rfl
    · rw [show plusSuffixes p (c :: t) = [] from by simp [plusSuffixes, hc]]
      rw [show (chomp1 p (c :: t) : Option (List Char)) = none from by simp [chomp1, hc]]
      rfl

theorem length_dropWhile_le (p : Char → Bool) :
    ∀ s : List Char, (s.dropWhile p).length ≤ s.length := by
  intro s
  induction s with
  | nil => exact Nat.le_refl 0
  | cons c t ih =>
    rw [List.dropWhile_cons]
    by_cases hc : p c = true
    · rw [if_pos hc]
      exact Nat.le_succ_of_le ih
    · rw [if_neg hc]

theorem take_sub_eq_takeWhile (p : Char → Bool) :
    ∀ s : List Char, s.take (s.length - (s.dropWhile p).length) = s.takeWhile p := by
  intro s
  induction s with
  | nil => rfl
  | cons c t ih =>
    by_cases hc : p c = true
    · rw [List.dropWhile_cons, if_pos hc, List.takeWhile_cons, if_pos hc]
      have hle := length_dropWhile_le p t
      have heq : (c :: t).length - (t.dropWhile p).length
          = (t.length - (t.dropWhile p).length) + 1 := by
        simp only [List.length_cons]
        omega
      rw [heq, List.take_succ_cons, ih]
    · rw [List.dropWhile_cons, if_neg hc, List.takeWhile_cons, if_neg hc]
      simp

theorem accept_rxPre_eq (s : List Char) :
    Rx.accept rxPre s =
      ((dropLits ("img".data) s).bind (fun s1 =>
        (chomp1 isPySpace s1).bind (fun s2 =>
          dropLits ("src=\"".data) s2))).toList := by
  have hsrc : ∀ (x : Char) (t2 : List Char), isPySpace x = true →
      Rx.accept (Rx.lits ("src=\"".data)) (x :: t2) = [] := by
    intro x t2 hx
    rw [accept_lits]
    have hxs : x ≠ 's' := by
      intro hxe
      rw [hxe] at hx
      exact absurd hx (by decide)
    show (if x = 's' then dropLits ("rc=\"".data) t2 else none).toList = []
    rw [if_neg hxs]
    rfl
  show ((Rx.lits ("img".data)).accept s).flatMap
      (Rx.accept (Rx.seq (Rx.plus1 isPySpace) (Rx.lits ("src=\"".data)))) = _
  rw [accept_lits]
  cases h1 : dropLits ("img".data) s with
  | none => rfl
  | some s1 =>
    simp only [Option.some_bind]
    show Rx.accept (Rx.seq (Rx.plus1 isPySpace) (Rx.lits ("src=\"".data))) s1 ++ [] = _
    rw [List.append_nil]
    show (plusSuffixes isPySpace s1).flatMap (Rx.accept (Rx.lits ("src=\"".data))) = _
    rw [plusSuffixes_flatMap isPySpace _ hsrc s1]
    cases h2 : chomp1 isPySpace s1 with
    | none => rfl
    | some s2 =>
      simp only [Option.some_bind]
      rw [accept_lits]

theorem accept_rxPost_eq (card : List Char) (t : List Char) :
    Rx.accept (rxPost (Rx.lits card)) t =
      ((dropLits ("\"".data) t).bind (fun s5 =>
        (chomp1 isPySpace s5).bind (fun s6 =>
          (dropLits ("alt=\"".data) s6).bind (fun s7 =>
            (dropLits card s7).bind (fun s8 =>
              dropLits ("\"".data) s8))))).toList := by
  have halt : ∀ (x : Char) (t2 : List Char), isPySpace x = true →
      Rx.accept (Rx.seq (Rx.lits ("alt=\"".data)) (Rx.seq (Rx.lits card) (Rx.lit '"')))
        (x :: t2) = [] := by
    intro x t2 hx
    have hxa : x ≠ 'a' := by
      intro hxe
      rw [hxe] at hx
      exact absurd hx (by decide)
    show ((Rx.lits ("alt=\"".data)).accept (x :: t2)).flatMap _ = []
    rw [accept_lits]
    have hnone : dropLits ("alt=\"".data) (x :: t2) = none := by
      show (if x = 'a' then dropLits ("lt=\"".data) t2 else none) = none
      rw [if_neg hxa]
    rw [hnone]
    rfl
  show ((Rx.lit '"').accept t).flatMap _ = _
  rw [accept_lit]
  cases h1 : dropLits ("\"".data) t with
  | none => rfl
  | some s5 =>
    simp only [Option.some_bind]
    show Rx.accept (Rx.seq (Rx.plus1 isPySpace)
      (Rx.seq (Rx.lits ("alt=\"".data)) (Rx.seq (Rx.lits card) (Rx.lit '"')))) s5 ++ [] = _
    rw [List.append_nil]
    show (plusSuffixes isPySpace s5).flatMap
      (Rx.accept (Rx.seq (Rx.lits ("alt=\"".data)) (Rx.seq (Rx.lits card) (Rx.lit '"')))) = _
    rw [plusSuffixes_flatMap isPySpace _ halt s5]
    cases h2 : chomp1 isPySpace s5 with
    | none => rfl
    | some s6 =>
      simp only [Option.some_bind]
      show ((Rx.lits ("alt=\"".data)).accept s6).flatMap
        (Rx.accept (Rx.seq (Rx.lits card) (Rx.lit '"'))) = _
      rw [accept_lits]
      cases h3 : dropLits ("alt=\"".data) s6 with
      | none => rfl
      | some s7 =>
        simp only [Option.some_bind]
        show Rx.accept (Rx.seq (Rx.lits card) (Rx.lit '"')) s7 ++ [] = _
        rw [List.append_nil]
        show ((Rx.lits card).accept s7).flatMap (Rx.accept (Rx.lit '"')) = _
        rw [accept_lits]
        cases h4 : dropLits card s7 with
        | none => rfl
        | some s8 =>
          simp only [Option.some_bind]
          show (Rx.lit '"').accept s8 ++ [] = _
          rw [List.append_nil, accept_lit]

theorem matchAt_plain (card s : List Char) :
    matchAt (Rx.lits card) s = specMatchAt card s := by
  unfold matchAt specMatchAt
  rw [accept_rxPre_eq]
  cases h1 : dropLits ("img".data) s with
  | none => rfl
  | some s1 =>
    simp only [Option.some_bind]
    cases h2 : chomp1 isPySpace s1 with
    | none => rfl
    | some s2 =>
      simp only [Option.some_bind]
      cases h3 : dropLits ("src=\"".data) s2 with
      | none => rfl
      | some s3 =>
        simp only [Option.some_bind]
        show ([s3].findSome? _) = _
        simp only [List.findSome?_cons]
        have hq : ∀ (x : Char) (t2 : List Char), notQuote x = true →
            (if ((rxPost (Rx.lits card)).accept (x :: t2)).isEmpty = true then none
             else some (List.take (s3.length - (x :: t2).length) s3)) = none := by
          intro x t2 hx
          have hxq : x ≠ '"' := by
            intro hxe
            rw [hxe] at hx
            exact absurd hx (by decide)
          have hempty : (rxPost (Rx.lits card)).accept (x :: t2) = [] := by
            show ((Rx.lit '"').accept (x :: t2)).flatMap _ = []
            show (if x = '"' then [t2] else []).flatMap _ = []
            rw [if_neg hxq]
            rfl
          rw [hempty]
          rfl
        rw [plusSuffixes_findSome notQuote
          (fun t2 => if ((rxPost (Rx.lits card)).accept t2).isEmpty = true then none
            else some (List.take (s3.length - t2.length) s3)) hq s3]
        cases h4 : chomp1 notQuote s3 with
        | none => rfl
        | some s4 =>
          simp only [Option.some_bind]
          rw [accept_rxPost_eq card s4]
          cases h5 : (dropLits ("\"".data) s4).bind (fun s5 =>
              (chomp1 isPySpace s5).bind (fun s6 =>
                (dropLits ("alt=\"".data) s6).bind (fun s7 =>
                  (dropLits card s7).bind (fun s8 =>
                    dropLits ("\"".data) s8)))) with
          | none => rfl
          | some s9 =>
            show some (List.take (s3.length - s4.length) s3) = some (s3.takeWhile notQuote)
            rw [chomp1_eq_dropWhile notQuote s3 s4 h4]
            rw [take_sub_eq_takeWhile notQuote s3]

theorem reSearch_plain (card : List Char) :
    ∀ s : List Char, reSearch (Rx.lits card) s = specFind card s := by
  intro s
  induction s with
  | nil => exact matchAt_plain card []
  | cons c t ih =>
    show (match matchAt (Rx.lits card) (c :: t) with
      | some u => some u
      | none => reSearch (Rx.lits card) t) = _
    rw [matchAt_plain card (c :: t), ih]
    show _ = (match specMatchAt card (c :: t) with
      | some u => some u
      | none => specFind card t)
    rfl

/-- C8 (amended): for card names containing no regex metacharacter,
`MagicCards.img_url` returns the `src` URL of the leftmost occurrence of an
`img src="..." alt="..."` pattern whose alt-text exactly equals the card name
(`specImgUrl`, written from the spec's words), and raises `LookupError`
exactly when no such occurrence exists.  The name is interpolated into the
pattern unescaped, so a name containing regex metacharacters is interpreted
as regex syntax (e.g. `.` matches any character) and the alt-text is then not
required to match exactly — see the counterexample. -/
theorem c8_img_url_exact (site card : String)
    (hplain : ∀ c ∈ card.data, plainChar c = true) :
    MagicCards.img_url site card =
      (match specImgUrl site card with
       | some u => Except.ok u
       | none => Except.error ("Could not find image for: " ++ card)) := by
  unfold MagicCards.img_url specImgUrl
  rw [compileCard_plain card.data hplain]
  show (match reSearch (Rx.lits card.data) site.data with
    | some u => Except.ok (String.mk u)
    | none => Except.error ("Could not find image for: " ++ card)) = _
  rw [reSearch_plain card.data site.data]
  cases h : specFind card.data site.data <;> rfl

/-- Witness for C8: an exact alt-text match is found and returned; a page
without the pattern raises the lookup failure. -/
theorem c8_img_url_exact_witness :
    MagicCards.img_url ("<img  src=\"/x.jpg\" alt=\"Forest\">") ("Forest")
      = Except.ok "/x.jpg" ∧
    specImgUrl ("<img  src=\"/x.jpg\" alt=\"Forest\">") ("Forest") = some "/x.jpg" ∧
    MagicCards.img_url ("no match here") ("Forest")
      = Except.error ("Could not find image for: Forest") := by
  refine ⟨?_, rfl, ?_⟩
  · rw [c8_img_url_exact ("<img  src=\"/x.jpg\" alt=\"Forest\">") ("Forest") (by decide)]
    rfl
  · rw [c8_img_url_exact ("no match here") ("Forest") (by decide)]
    rfl

/-- Counterexample to C8 as stated: the card name is spliced into the regex
unescaped, so for the name `A.B` the pattern's `.` matches any character: the
markup's alt-text `AxB` does not exactly equal `A.B`, yet `img_url` returns
the URL instead of raising `LookupError`. -/
theorem c8_counterexample :
    MagicCards.img_url ("img src=\"u\" alt=\"AxB\"") ("A.B") = Except.ok "u" ∧
    specImgUrl ("img src=\"u\" alt=\"AxB\"") ("A.B") = none := by
  exact ⟨rfl, rfl⟩
